import Mathlib

/-!
Shallow embedding of the `epics-log-squasher` core (files
`epics_log_squasher/parser.py` and `epics_log_squasher/monitor.py`).

Strings are modelled as Lean `String`/`List Char` (Python `str` code points),
machine-level concerns do not arise.  The handful of regular expressions the
source declares are compiled by hand into deterministic matchers that follow
Python `re` semantics (leftmost match, greedy quantifiers with backtracking,
`.` not matching a newline).  Matchers that need backtracking are written with
an explicit fuel argument so that they stay structurally recursive and
kernel-computable; the fuel supplied by the wrappers is an upper bound on the
number of recursion steps, so it never runs out.
-/

namespace EpicsLogSquasher

/-- Characters matched by Python's regex class `\s` / `str.isspace` (the
Unicode whitespace set). -/
def pyIsSpace (c : Char) : Bool :=
  let n := c.toNat
  (9 ≤ n && n ≤ 13) || (28 ≤ n && n ≤ 31) || n == 32 || n == 133 || n == 160 ||
    n == 5760 || (8192 ≤ n && n ≤ 8202) || n == 8232 || n == 8233 ||
    n == 8239 || n == 8287 || n == 12288

/-- Characters matched by `.` in a Python regex without `re.DOTALL`:
everything except a newline. -/
def isDotChar (c : Char) : Bool := c != '\n'

/-- ASCII decimal digits, modelling the regex class `\d` (the source only ever
feeds ASCII log text through these patterns). -/
def isDigitChar (c : Char) : Bool := '0' ≤ c && c ≤ '9'

/-- Numeric value of an ASCII digit character. -/
def dv (c : Char) : Nat := c.toNat - 48

/-- ASCII digit character for a value below ten. -/
def digitChar (d : Nat) : Char := Char.ofNat (48 + d)

/-- Python `str.strip()` on a character list: drop leading and trailing
whitespace. -/
def pyStrip (cs : List Char) : List Char :=
  ((cs.dropWhile pyIsSpace).reverse.dropWhile pyIsSpace).reverse

/-- Python `str.rstrip()` on a character list: drop trailing whitespace. -/
def pyRstrip (cs : List Char) : List Char :=
  (cs.reverse.dropWhile pyIsSpace).reverse

/-- Python `str.split(sep)` for a single-character separator: split on every
occurrence, keeping empty parts. -/
def splitOnChar (sep : Char) : List Char → List (List Char)
  | [] => [[]]
  | c :: rest =>
    if c = sep then [] :: splitOnChar sep rest
    else
      match splitOnChar sep rest with
      | h :: t => (c :: h) :: t
      | [] => [[c]]

/-- Python `sep.join(parts)` for a single-character separator. -/
def joinWithChar (sep : Char) (parts : List (List Char)) : List Char :=
  List.intercalate [sep] parts

/-!
## `CleanRegexes` (parser.py lines 107-113)

The single bundled pattern (`ansi_escape_codes`) matches an ANSI escape
sequence: an introducer (ESC followed by a byte in 0x40..0x5F, or a C1 byte in
0x80..0x9F), then any number of parameter bytes (0x30..0x3F), then any number
of intermediate bytes (0x20..0x2F), then one final byte (0x40..0x7E).  The
three trailing character classes are pairwise disjoint, so greedy matching is
deterministic and needs no backtracking.
-/

/-- Attempt to match the ANSI-escape pattern at the head of `cs`; on success
return the characters after the match.  A match consumes at least two
characters. -/
def ansiMatch (cs : List Char) : Option (List Char) :=
  match cs with
  | [] => none
  | c1 :: rest =>
    let afterIntro : Option (List Char) :=
      if c1.toNat = 0x1B then
        match rest with
        | c2 :: rest2 =>
          if 0x40 ≤ c2.toNat && c2.toNat ≤ 0x5F then some rest2 else none
        | [] => none
      else if 0x80 ≤ c1.toNat && c1.toNat ≤ 0x9F then some rest
      else none
    match afterIntro with
    | none => none
    | some t =>
      let t := t.dropWhile (fun c => 0x30 ≤ c.toNat && c.toNat ≤ 0x3F)
      let t := t.dropWhile (fun c => 0x20 ≤ c.toNat && c.toNat ≤ 0x2F)
      match t with
      | c :: t2 => if 0x40 ≤ c.toNat && c.toNat ≤ 0x7E then some t2 else none
      | [] => none

/-- Scan of `re.Pattern.sub` for the ANSI-escape pattern: walk the string left
to right, replacing each non-overlapping match by `repl` and continuing after
it.  `fuel` bounds the recursion; each step consumes at least one character,
so `cs.length` fuel suffices. -/
def cleanScan (repl : List Char) : Nat → List Char → List Char
  | _, [] => []
  | 0, cs => cs
  | n + 1, c :: cs =>
    match ansiMatch (c :: cs) with
    | some rest => repl ++ cleanScan repl n rest
    | none => c :: cleanScan repl n cs

namespace CleanRegexes

/-- Models `CleanRegexes.sub(replace_with, line)` (`Regexes.sub` applied to the
single `ansi_escape_codes` pattern). -/
def sub (replace_with : String) (line : String) : String :=
  ⟨cleanScan replace_with.data line.data.length line.data⟩

end CleanRegexes

namespace IgnoreRegexes

/-- Models `IgnoreRegexes.fullmatch(line)`: the single bundled pattern `\s*`
full-matches exactly the all-whitespace strings. -/
def fullmatch (line : String) : Bool := line.data.all pyIsSpace

end IgnoreRegexes

/-!
## Token-compiled patterns

Every remaining pattern in the source is a sequence of literal text, greedy
`(?P<name>.*)` captures, and greedy `(?P<name>\d+)` captures.  A pattern is
represented as a token list and matched with explicit backtracking: a greedy
quantifier tries the longest candidate first and falls back one character at a
time, which is exactly Python `re` preference order for these patterns.
-/

/-- Pattern tokens: a literal, a greedy `.*` (optionally a named capture), or
a named greedy `\d+` capture.  `starK` and `digitsK` are the in-progress
states of the two quantifiers during backtracking: "currently trying a match
of length `k`"; they never appear in a source pattern. -/
inductive Tok where
  | lit (s : String)
  | star (name : Option String)
  | digits (name : String)
  | anyChar
  | starK (name : Option String) (k : Nat)
  | digitsK (name : String) (k : Nat)

/-- Push a named capture onto the capture list (anonymous groups record
nothing). -/
def pushCap (name : Option String) (cap : List Char)
    (caps : List (String × String)) : List (String × String) :=
  match name with
  | some n => (n, ⟨cap⟩) :: caps
  | none => caps

/-- Backtracking matcher for a token sequence against a full string.  Returns
the named captures in pattern order when the whole string matches.  A greedy
quantifier is expanded to its in-progress form at the longest feasible
candidate length, which then falls back one character at a time — Python `re`
preference order.  `fuel` bounds the recursion: each token accounts for at
most `cs.length + 2` steps, so the bound used in `toksFullmatch` cannot be
exhausted. -/
def matchToksF : Nat → List Tok → List Char → Option (List (String × String))
  | _, [], [] => some []
  | _, [], _ :: _ => none
  | 0, _ :: _, _ => none
  | n + 1, Tok.lit l :: rest, cs =>
    if l.data.isPrefixOf cs then matchToksF n rest (cs.drop l.data.length)
    else none
  | n + 1, Tok.star name :: rest, cs =>
    matchToksF n (Tok.starK name ((cs.takeWhile isDotChar).length) :: rest) cs
  | n + 1, Tok.digits name :: rest, cs =>
    matchToksF n
      (Tok.digitsK name ((cs.takeWhile isDigitChar).length) :: rest) cs
  | n + 1, Tok.anyChar :: rest, cs =>
    match cs with
    | c :: cs2 => if isDotChar c then matchToksF n rest cs2 else none
    | [] => none
  | n + 1, Tok.starK name 0 :: rest, cs =>
    (matchToksF n rest cs).map (pushCap name [])
  | n + 1, Tok.starK name (k + 1) :: rest, cs =>
    match matchToksF n rest (cs.drop (k + 1)) with
    | some caps => some (pushCap name (cs.take (k + 1)) caps)
    | none => matchToksF n (Tok.starK name k :: rest) cs
  | _ + 1, Tok.digitsK _ 0 :: _, _ => none
  | n + 1, Tok.digitsK name (k + 1) :: rest, cs =>
    match matchToksF n rest (cs.drop (k + 1)) with
    | some caps => some ((name, ⟨cs.take (k + 1)⟩) :: caps)
    | none => matchToksF n (Tok.digitsK name k :: rest) cs

/-- Full match of a token pattern against a string (Python
`re.Pattern.fullmatch`), with sufficient fuel. -/
def toksFullmatch (toks : List Tok) (cs : List Char) :
    Option (List (String × String)) :=
  matchToksF ((toks.length + 1) * (cs.length + 2)) toks cs

namespace GreenlitRegexes

/-- Token form of the single bundled pattern `@@@ .*` (`procserv_lines`). -/
def procserv_lines : List Tok := [Tok.lit "@@@ ", Tok.star none]

/-- Models `GreenlitRegexes.fullmatch(line)`. -/
def fullmatch (line : String) : Bool :=
  (toksFullmatch procserv_lines line.data).isSome

end GreenlitRegexes

/-!
## Data model (parser.py lines 24-75, 161-167, 466-529)
-/

/-- Model of `datetime.datetime`: a plain record of calendar fields.  The
squashing pipeline carries timestamps around opaquely; only the
`DateFormats` component (below) looks inside. -/
structure DateTime where
  year : Nat
  month : Nat
  day : Nat
  hour : Nat
  minute : Nat
  second : Nat
  microsecond : Nat
deriving DecidableEq

/-- Models `IndexedString` (parser.py line 466): a log line tagged with its
order of arrival and a timestamp. -/
structure IndexedString where
  index : Nat
  timestamp : DateTime
  value : String
deriving DecidableEq

/-- Models `Message` (parser.py line 24).  Python's `info` is a tuple of
`(key, tuple-of-strings)` pairs; it is modelled as an association list. -/
structure Message where
  message : String
  timestamp : DateTime
  info : List (String × List String)
  index : Nat
  source_lines : Nat
deriving DecidableEq

/-- Models `Message.from_dict` (parser.py line 32).  `value_to_tuple` maps a
list value to the same tuple of strings, so `info` passes through unchanged
here.  In Python `timestamp` defaults to `datetime.now()`, `index` defaults
to `0` and `source_lines` to `0`; every call site in this embedding passes
all arguments explicitly, mirroring which defaults the source call used. -/
def Message.from_dict (message : String) (info : List (String × List String))
    (timestamp : DateTime) (index : Nat) (source_lines : Nat) : Message :=
  ⟨message, timestamp, info, index, source_lines⟩

/-- Models `Message.from_indexed_string` (parser.py line 69). -/
def Message.from_indexed_string (value : IndexedString) : Message :=
  ⟨value.value, value.timestamp, [], value.index, 1⟩

/-- Models `Message.from_indexed_strings` (parser.py line 73). -/
def Message.from_indexed_strings (values : List IndexedString) : List Message :=
  values.map Message.from_indexed_string

/-- Models `GroupMatch` (parser.py line 161).  `groupdict` is the regex
match's named captures in pattern order (Python preserves dict insertion
order). -/
structure GroupMatch where
  name : String
  message : String
  source : IndexedString
  groupdict : List (String × String)
deriving DecidableEq

/-!
## Format strings

A Python `str.format` template is represented pre-parsed: literal pieces and
`\x7bname\x7d` replacement fields.
-/

/-- Pieces of a `str.format` template. -/
inductive FmtPart where
  | lit (s : String)
  | field (name : String)

/-- Render a template, looking replacement fields up through `get`
(models `message_format.format(**captures)`). -/
def renderFmt (fmt : List FmtPart) (get : String → String) : String :=
  String.join (fmt.map fun p =>
    match p with
    | FmtPart.lit s => s
    | FmtPart.field n => get n)

/-- Python `dict.setdefault(key, []).append(value)` on an insertion-ordered
mapping from keys to lists: append to the existing entry, or add a new entry
at the end. -/
def assocAppend (existing : List (String × List String)) (key : String)
    (value : String) : List (String × List String) :=
  match existing with
  | [] => [(key, [value])]
  | (k, vs) :: rest =>
    if k = key then (k, vs ++ [value]) :: rest
    else (k, vs) :: assocAppend rest key value

/-- Models `_append_groupdict` (parser.py line 300): merge one match's
captures into the accumulated capture lists. -/
def _append_groupdict (existing : List (String × List String))
    (add : List (String × String)) : List (String × List String) :=
  add.foldl (fun ex kv => assocAppend ex kv.1 kv.2) existing

/-!
## Single-line groupable patterns (parser.py lines 128-225)
-/

/-- Models `GroupJoiner` (parser.py line 128).  `extras_join` and
`count_threshold` are carried but, as in the source, never consulted by the
emission path. -/
structure GroupJoiner where
  pattern : List Tok
  message_format : List FmtPart
  extras : Option (List String)
  extras_join : String
  count_threshold : Int

/-- Models `GroupJoiner.join` (parser.py line 136). -/
def GroupJoiner.join (self : GroupJoiner) (matches_ : List GroupMatch) :
    Option Message :=
  match matches_ with
  | [] => none
  | first_match :: _ =>
    let extras : List (String × List String) :=
      matches_.foldl (fun ex m => _append_groupdict ex m.groupdict) []
    let extras : List (String × List String) :=
      match self.extras with
      | some keys => extras.filter (fun kv => keys.contains kv.1)
      | none => extras
    some ⟨first_match.message, first_match.source.timestamp, extras,
      first_match.source.index, matches_.length⟩

namespace SingleLineGroupableRegexes

/-- Models `SingleLineGroupableRegexes.groups` (parser.py line 172): the seven
bundled joiners, in declaration order, patterns and templates compiled to
token form. -/
def groups : List (String × GroupJoiner) :=
  [("stream_protocol_aborted",
    { pattern := [Tok.star (some "pv"), Tok.lit ": Protocol aborted"],
      message_format := [FmtPart.lit "Protocol aborted"],
      extras := none, extras_join := ", ", count_threshold := 10 }),
   ("asyn_connect_failed",
    { pattern := [Tok.star (some "pv"),
        Tok.lit ": pasynCommon->connect() failed: ", Tok.star (some "reason")],
      message_format := [FmtPart.lit "pasynCommon->connect() failed: ",
        FmtPart.field "reason"],
      extras := some ["pv"], extras_join := ", ", count_threshold := 10 }),
   ("asyn_lock_failed",
    { pattern := [Tok.star (some "context"), Tok.lit " ",
        Tok.star (some "pv"),
        Tok.lit " lockRequest: pasynManager->queueRequest() failed: ",
        Tok.star (some "reason")],
      message_format := [FmtPart.field "context",
        FmtPart.lit " lockRequest: pasynManager->queueRequest() failed: ",
        FmtPart.field "reason"],
      extras := some ["pv"], extras_join := ", ", count_threshold := 10 }),
   ("snmp_querylist_timeout",
    { pattern := [Tok.star (some "context"),
        Tok.lit ": Snmp QryList Timeout on ", Tok.star (some "pv")],
      message_format := [FmtPart.field "context",
        FmtPart.lit ": Snmp QryList Timeout"],
      extras := some ["pv"], extras_join := ", ", count_threshold := 10 }),
   ("snmp_error_code",
    { pattern := [Tok.lit "Record [", Tok.star (some "pv"),
        Tok.lit "] received error code [", Tok.star (some "code"),
        Tok.lit "]!"],
      message_format := [FmtPart.lit "Received error code ",
        FmtPart.field "code"],
      extras := some ["pv"], extras_join := ", ", count_threshold := 10 }),
   ("errlog_spam",
    { pattern := [Tok.lit "errlog: ", Tok.digits "count",
        Tok.lit " messages were discarded"],
      message_format := [FmtPart.lit "errlog: messages were discarded"],
      extras := some ["count"], extras_join := ", ", count_threshold := 10 }),
   ("active_scan_count",
    { pattern := [Tok.star (some "pv"),
        Tok.lit " Active scan count exceeded!"],
      message_format := [FmtPart.lit "Active scan count exceeded!"],
      extras := some ["pv"], extras_join := ", ", count_threshold := -1 })]

/-- Loop body of `SingleLineGroupableRegexes.group_fullmatch` (parser.py line
210): first pattern whose full match succeeds wins. -/
def group_fullmatchGo (idx : IndexedString) :
    List (String × GroupJoiner) → Option GroupMatch
  | [] => none
  | (group, joiner) :: rest =>
    match toksFullmatch joiner.pattern idx.value.data with
    | none => group_fullmatchGo idx rest
    | some groupdict =>
      some ⟨group,
        renderFmt joiner.message_format (fun n => (groupdict.lookup n).getD ""),
        idx, groupdict⟩

/-- Models `SingleLineGroupableRegexes.group_fullmatch` (parser.py line
210). -/
def group_fullmatch (idx : IndexedString) : Option GroupMatch :=
  group_fullmatchGo idx groups

end SingleLineGroupableRegexes

/-!
## Multi-line groupable patterns (parser.py lines 228-364)
-/

/-- Models `MultilineGroupJoiner` (parser.py line 228). -/
structure MultilineGroupJoiner where
  start_pattern : List Tok
  inner_patterns : List (List Tok)
  end_pattern : List Tok
  message_format : List FmtPart

/-- Models `MultilineMatchState` (parser.py line 236); `end_` stands for the
Python member `end` (a Lean keyword). -/
inductive MultilineMatchState where
  | init
  | start
  | inner
  | end_
  | unmatched
deriving DecidableEq

/-- Models `MultilineGroupMatch`'s data (parser.py line 249); the methods
follow after the pattern table they consult. -/
structure MultilineGroupMatch where
  name : String
  state : MultilineMatchState
  source : List IndexedString
  groupdict : List (String × List String)
deriving DecidableEq

/-- A token that matches nothing (a `\d+` quantifier that has exhausted its
candidates). -/
def neverTok : Tok := Tok.digitsK "never" 0

/-- Fallback joiner for an unknown group name.  Python raises `KeyError`
there; reachable states only carry the one defined name, and this default
matches nothing, keeping the lookups total. -/
def mlDefaultJoiner : MultilineGroupJoiner :=
  { start_pattern := [neverTok], inner_patterns := [],
    end_pattern := [neverTok], message_format := [] }

namespace MultiLineGroupableRegexes

/-- Models `MultiLineGroupableRegexes.groups` (parser.py line 318): the single
bundled group `procserv_status_update`, patterns compiled to token form. -/
def groups : List (String × MultilineGroupJoiner) :=
  [("procserv_status_update",
    { message_format := [FmtPart.lit "procServ status update"],
      start_pattern := [Tok.lit "@@@ @@@ @@@ @@@ @@@"],
      inner_patterns :=
        [[Tok.lit "@@@ Received a sigChild for process ", Tok.digits "pid",
          Tok.anyChar, Tok.lit " Normal exit status = ",
          Tok.digits "exit_code"],
         [Tok.lit "@@@ Received a sigChild for process ", Tok.digits "pid",
          Tok.anyChar, Tok.lit " The process was killed by signal ",
          Tok.digits "signal"],
         [Tok.lit "@@@ Current time: ", Tok.star (some "procserv_ts")],
         [Tok.lit "@@@ Child process is shutting down, a new one will be restarted shortly"],
         [Tok.lit "@@@ ^R or ^X restarts the child, ^Q quits the server"],
         [Tok.lit "@@@ Restarting child \"", Tok.star (some "procserv_iocname"),
          Tok.lit "\""],
         [Tok.lit "@@@    (as ", Tok.star (some "process"), Tok.lit ")"],
         [Tok.lit "@@@ Toggled auto restart mode to ",
          Tok.star (some "restart_mode")],
         [Tok.lit "@@@ The PID of new child \"", Tok.star none,
          Tok.lit "\" is: ", Tok.digits "new_pid"]],
      end_pattern := [Tok.lit "@@@ @@@ @@@ @@@ @@@"] })]

/-- Loop body of `MultiLineGroupableRegexes.start_fullmatch` (parser.py line
337): first group whose `start_pattern` full-matches creates a fresh
in-progress match seeded with the start captures. -/
def start_fullmatchGo (idx : IndexedString) :
    List (String × MultilineGroupJoiner) → Option MultilineGroupMatch
  | [] => none
  | (group, joiner) :: rest =>
    match toksFullmatch joiner.start_pattern idx.value.data with
    | none => start_fullmatchGo idx rest
    | some caps =>
      some ⟨group, MultilineMatchState.start, [idx],
        caps.map (fun kv => (kv.1, [kv.2]))⟩

/-- Models `MultiLineGroupableRegexes.start_fullmatch` (parser.py line
337). -/
def start_fullmatch (idx : IndexedString) : Option MultilineGroupMatch :=
  start_fullmatchGo idx groups

end MultiLineGroupableRegexes

/-- Inner-pattern loop of `MultilineGroupMatch.fullmatch` (parser.py line
271): first inner pattern to full-match wins. -/
def findInner (value : String) : List (List Tok) →
    Option (List (String × String))
  | [] => none
  | p :: rest =>
    match toksFullmatch p value.data with
    | some caps => some caps
    | none => findInner value rest

/-- Models `MultilineGroupMatch.fullmatch` (parser.py line 256).  The Python
method mutates `self` and returns a `bool`; here it returns the updated match
together with that `bool` ("still inside the group"). -/
def MultilineGroupMatch.fullmatch (self : MultilineGroupMatch)
    (idx : IndexedString) : MultilineGroupMatch × Bool :=
  let joiner :=
    (MultiLineGroupableRegexes.groups.lookup self.name).getD mlDefaultJoiner
  match findInner idx.value joiner.inner_patterns with
  | some caps =>
    ({ self with
        source := self.source ++ [idx]
        groupdict := _append_groupdict self.groupdict caps }, true)
  | none =>
    match toksFullmatch joiner.end_pattern idx.value.data with
    | some caps =>
      ({ self with
          source := self.source ++ [idx]
          groupdict := _append_groupdict self.groupdict caps
          state := MultilineMatchState.end_ }, false)
    | none => ({ self with state := MultilineMatchState.unmatched }, false)

/-- Models `MultilineGroupMatch.join` (parser.py line 289).  The source
renders `message_format.format(**self.groupdict)` — the bundled template has
no replacement fields, so the capture lookup is never consulted — and calls
`Message.from_dict` passing `timestamp`, `info` and `source_lines` but *not*
`index`, which therefore keeps its default `0`.  Python indexes
`self.source[0]` and would raise on an empty source (unreachable from the
adder, which never stores an empty completed match); the empty case here
returns a placeholder with `source_lines = 0`. -/
def MultilineGroupMatch.join (self : MultilineGroupMatch) : Message :=
  let group :=
    (MultiLineGroupableRegexes.groups.lookup self.name).getD mlDefaultJoiner
  let msg := renderFmt group.message_format (fun _ => "")
  match self.source with
  | [] => ⟨msg, ⟨0, 0, 0, 0, 0, 0, 0⟩, self.groupdict, 0, 0⟩
  | first :: _ =>
    Message.from_dict msg self.groupdict first.timestamp 0 self.source.length

/-!
## Date formats (parser.py lines 367-463)

`datetime.strptime` compiles a format string into a regex; each directive
becomes a fixed alternation (CPython `_strptime.py`):
`%Y` four digits, `%m` matches 1[0-2] or 0[1-9] or [1-9], `%d` matches 3[01]
or [12] digit or 0[1-9] or [1-9], `%H` matches 2[0-3] or [0-1] digit or a
digit, `%M` matches [0-5] digit or a digit, `%S` matches 6[0-1] or [0-5]
digit or a digit, `%f` one to six digits (scaled to microseconds).  The
matcher below lists each directive's alternatives in that preference order
and backtracks through them.  A parse that leaves input unconsumed fails
("unconverted data remains"), and the parsed fields are validated exactly as
the `datetime` constructor does (raising there is caught as a format
mismatch).
-/

/-- Two zero-padded decimal digits (output of `%m`, `%d`, `%H`, `%M`, `%S`
for in-range values). -/
def pad2 (n : Nat) : List Char := [digitChar (n / 10), digitChar (n % 10)]

/-- Four zero-padded decimal digits (the shape `%Y` output takes for years
1000-9999; see `decDigits` for the general, unpadded platform output). -/
def pad4 (n : Nat) : List Char :=
  [digitChar (n / 1000), digitChar (n / 100 % 10), digitChar (n / 10 % 10),
   digitChar (n % 10)]

/-- Six zero-padded decimal digits (output of `%f`). -/
def pad6 (n : Nat) : List Char :=
  [digitChar (n / 100000), digitChar (n / 10000 % 10), digitChar (n / 1000 % 10),
   digitChar (n / 100 % 10), digitChar (n / 10 % 10), digitChar (n % 10)]

/-- Numeric value of a digit string, most significant first. -/
def readDs (cs : List Char) : Nat := cs.foldl (fun a c => a * 10 + dv c) 0

/-- Decimal digits of `n`, most significant first, no padding; the fuel is an
upper bound on the digit count (`n` itself always suffices). -/
def decDigitsGo : Nat → Nat → List Char
  | 0, _ => []
  | fuel + 1, n =>
    if n = 0 then [] else decDigitsGo fuel (n / 10) ++ [digitChar (n % 10)]

/-- Unpadded decimal representation of `n` (output of `%Y` on the program's
platform: glibc `strftime` prints the year without padding, so years below
1000 come out with fewer than four digits). -/
def decDigits (n : Nat) : List Char :=
  if n = 0 then ['0'] else decDigitsGo (n + 1) n

/-- Format tokens: a literal character or a `%` directive.  `cands` is the
in-progress state of a directive during backtracking (its remaining
candidate list); it never appears in a compiled format. -/
inductive FTok where
  | lit (c : Char)
  | dir (d : Char)
  | cands (d : Char) (cs : List (Nat × List Char))

/-- Compile a strftime/strptime format string to tokens. -/
def compileFmt : List Char → List FTok
  | [] => []
  | '%' :: d :: rest => FTok.dir d :: compileFmt rest
  | c :: rest => FTok.lit c :: compileFmt rest

/-- Candidates for the `%f` directive: one to six leading digits, longest
first; a `k`-digit capture is scaled by `10 ^ (6 - k)`. -/
def fCandsAux (cs : List Char) : Nat → List (Nat × List Char)
  | 0 => []
  | j + 1 =>
    (readDs (cs.take (j + 1)) * 10 ^ (6 - (j + 1)), cs.drop (j + 1)) ::
      fCandsAux cs j

/-- Candidate `(value, rest-of-input)` pairs for one strptime directive, in
regex preference order (longest alternative first). -/
def candsFor (d : Char) (cs : List Char) : List (Nat × List Char) :=
  match d with
  | 'Y' =>
    match cs with
    | c1 :: c2 :: c3 :: c4 :: rest =>
      if isDigitChar c1 && isDigitChar c2 && isDigitChar c3 && isDigitChar c4
      then [(readDs [c1, c2, c3, c4], rest)] else []
    | _ => []
  | 'm' =>
    match cs with
    | c1 :: c2 :: rest =>
      (if c1 = '1' && '0' ≤ c2 && c2 ≤ '2' then [(10 + dv c2, rest)] else []) ++
      (if c1 = '0' && '1' ≤ c2 && c2 ≤ '9' then [(dv c2, rest)] else []) ++
      (if '1' ≤ c1 && c1 ≤ '9' then [(dv c1, c2 :: rest)] else [])
    | [c1] => if '1' ≤ c1 && c1 ≤ '9' then [(dv c1, [])] else []
    | [] => []
  | 'd' =>
    match cs with
    | c1 :: c2 :: rest =>
      (if c1 = '3' && '0' ≤ c2 && c2 ≤ '1' then [(30 + dv c2, rest)] else []) ++
      (if '1' ≤ c1 && c1 ≤ '2' && isDigitChar c2
        then [(dv c1 * 10 + dv c2, rest)] else []) ++
      (if c1 = '0' && '1' ≤ c2 && c2 ≤ '9' then [(dv c2, rest)] else []) ++
      (if '1' ≤ c1 && c1 ≤ '9' then [(dv c1, c2 :: rest)] else [])
    | [c1] => if '1' ≤ c1 && c1 ≤ '9' then [(dv c1, [])] else []
    | [] => []
  | 'H' =>
    match cs with
    | c1 :: c2 :: rest =>
      (if c1 = '2' && '0' ≤ c2 && c2 ≤ '3' then [(20 + dv c2, rest)] else []) ++
      (if '0' ≤ c1 && c1 ≤ '1' && isDigitChar c2
        then [(dv c1 * 10 + dv c2, rest)] else []) ++
      (if isDigitChar c1 then [(dv c1, c2 :: rest)] else [])
    | [c1] => if isDigitChar c1 then [(dv c1, [])] else []
    | [] => []
  | 'M' =>
    match cs with
    | c1 :: c2 :: rest =>
      (if '0' ≤ c1 && c1 ≤ '5' && isDigitChar c2
        then [(dv c1 * 10 + dv c2, rest)] else []) ++
      (if isDigitChar c1 then [(dv c1, c2 :: rest)] else [])
    | [c1] => if isDigitChar c1 then [(dv c1, [])] else []
    | [] => []
  | 'S' =>
    match cs with
    | c1 :: c2 :: rest =>
      (if c1 = '6' && '0' ≤ c2 && c2 ≤ '1' then [(60 + dv c2, rest)] else []) ++
      (if '0' ≤ c1 && c1 ≤ '5' && isDigitChar c2
        then [(dv c1 * 10 + dv c2, rest)] else []) ++
      (if isDigitChar c1 then [(dv c1, c2 :: rest)] else [])
    | [c1] => if isDigitChar c1 then [(dv c1, [])] else []
    | [] => []
  | 'f' => fCandsAux cs (min 6 (cs.takeWhile isDigitChar).length)
  | _ => []

/-- Backtracking matcher for a compiled format against the whole input
string, returning the `(directive, value)` pairs found.  A directive expands
to its candidate list and the candidates are tried in order, falling back on
continuation failure.  `fuel` bounds the recursion: each token accounts for
at most nine steps (a candidate list has at most six entries). -/
def matchFmtF : Nat → List FTok → List Char → Option (List (Char × Nat))
  | _, [], [] => some []
  | _, [], _ :: _ => none
  | 0, _ :: _, _ => none
  | n + 1, FTok.lit c :: rest, cs =>
    match cs with
    | c2 :: cs2 => if c2 = c then matchFmtF n rest cs2 else none
    | [] => none
  | n + 1, FTok.dir d :: rest, cs =>
    matchFmtF n (FTok.cands d (candsFor d cs) :: rest) cs
  | _ + 1, FTok.cands _ [] :: _, _ => none
  | n + 1, FTok.cands d ((v, after) :: more) :: rest, cs =>
    match matchFmtF n rest after with
    | some found => some ((d, v) :: found)
    | none => matchFmtF n (FTok.cands d more :: rest) cs

/-- Days in a month, with the Gregorian leap rule (as `datetime` validates). -/
def daysInMonth (year month : Nat) : Nat :=
  if month = 2 then
    (if (year % 4 = 0 && year % 100 ≠ 0) || year % 400 = 0 then 29 else 28)
  else if month = 4 || month = 6 || month = 9 || month = 11 then 30
  else 31

/-- Validation performed by the `datetime` constructor (`MINYEAR = 1`,
`MAXYEAR = 9999`; a parsed leap second 60/61 is rejected here, surfacing as
the `ValueError` that `find_timestamp` catches). -/
def dtCheck (dt : DateTime) : Bool :=
  1 ≤ dt.year && dt.year ≤ 9999 && 1 ≤ dt.month && dt.month ≤ 12 &&
    1 ≤ dt.day && dt.day ≤ daysInMonth dt.year dt.month && dt.hour ≤ 23 &&
    dt.minute ≤ 59 && dt.second ≤ 59 && dt.microsecond ≤ 999999

/-- Models `datetime.datetime.strptime(date_string, format)`, returning
`none` where Python raises `ValueError`.  Missing directives take the
`_strptime` defaults (year 1900, month 1, day 1, zero time). -/
def strptime (date_string : String) (format : String) : Option DateTime :=
  let toks := compileFmt format.data
  match matchFmtF ((toks.length + 1) * 9) toks date_string.data with
  | none => none
  | some found =>
    let dt : DateTime :=
      ⟨(found.lookup 'Y').getD 1900, (found.lookup 'm').getD 1,
       (found.lookup 'd').getD 1, (found.lookup 'H').getD 0,
       (found.lookup 'M').getD 0, (found.lookup 'S').getD 0,
       (found.lookup 'f').getD 0⟩
    if dtCheck dt then some dt else none

/-- Output of one strftime directive, as glibc prints in-range values: the
two- and six-digit directives are zero-padded, while `%Y` prints the year
unpadded (years below 1000 yield fewer than four digits, which `strptime`'s
four-digit `%Y` pattern then rejects). -/
def dirOut (dt : DateTime) (d : Char) : List Char :=
  match d with
  | 'Y' => decDigits dt.year
  | 'm' => pad2 dt.month
  | 'd' => pad2 dt.day
  | 'H' => pad2 dt.hour
  | 'M' => pad2 dt.minute
  | 'S' => pad2 dt.second
  | 'f' => pad6 dt.microsecond
  | _ => []

/-- Models `DateFormat` (parser.py line 367).  The `cleaner` is an optional
function on the remainder, as in the source. -/
structure DateFormat where
  format : String
  split_char : Char
  split_count : Nat
  cleaner : Option (String → String)

/-- Models `DateFormat.strftime` (parser.py line 378), i.e.
`dt.strftime(self.format)`. -/
def DateFormat.strftime (self : DateFormat) (dt : DateTime) : String :=
  ⟨((compileFmt self.format.data).map (fun t =>
      match t with
      | FTok.lit c => [c]
      | FTok.dir d => dirOut dt d
      | FTok.cands _ _ => [])).flatten⟩

namespace DateFormats

/-- Models the `iso8601_1` cleaner `re.compile(r"^\d+\s+").sub("", s)`: strip
one leading run of digits followed by whitespace (both classes are disjoint,
so greedy matching is deterministic; the anchor makes at most one
substitution). -/
def isoCleanerFun (s : String) : String :=
  let ds := s.data.takeWhile isDigitChar
  let rest := s.data.drop ds.length
  let ws := rest.takeWhile pyIsSpace
  if ds.length != 0 && ws.length != 0 then ⟨rest.drop ws.length⟩ else s

/-- Models `DateFormats._date_formats_` (parser.py line 390), in declaration
order. -/
def _date_formats_ : List (String × DateFormat) :=
  [("standard",
    { format := "%Y/%m/%d %H:%M:%S.%f", split_char := ' ', split_count := 2,
      cleaner := none }),
   ("short",
    { format := "%m/%d %H:%M:%S.%f", split_char := ' ', split_count := 2,
      cleaner := none }),
   ("iso8601_1",
    { format := "%Y-%m-%dT%H:%M:%S", split_char := '-', split_count := 3,
      cleaner := some isoCleanerFun })]

/-- Fallback for an unknown format name (Python raises `KeyError`; only the
three defined names are ever used). -/
def defaultDateFormat : DateFormat :=
  { format := "", split_char := ' ', split_count := 0, cleaner := none }

/-- Models `DateFormats.format(dt, fmt)` (parser.py line 413). -/
def format (dt : DateTime) (fmt : String) : String :=
  ((_date_formats_.lookup fmt).getD defaultDateFormat).strftime dt

/-- Loop body of `DateFormats.find_timestamp` (parser.py line 432): for each
format, strip the line, split on the format's separator, parse the first
`split_count` parts rejoined; on success return the timestamp and the
(cleaned) rejoined remainder, otherwise try the next format. -/
def find_timestampGo (line : String) :
    List (String × DateFormat) → Option DateTime × String
  | [] => (none, line)
  | (_, fmt) :: rest =>
    let split := splitOnChar fmt.split_char (pyStrip line.data)
    let date_portion : String :=
      ⟨joinWithChar fmt.split_char (split.take fmt.split_count)⟩
    match strptime date_portion fmt.format with
    | none => find_timestampGo line rest
    | some dt =>
      let remainder : String :=
        ⟨joinWithChar fmt.split_char (split.drop fmt.split_count)⟩
      let remainder :=
        match fmt.cleaner with
        | some cl => cl remainder
        | none => remainder
      (some dt, remainder)

/-- Models `DateFormats.find_timestamp` (parser.py line 432). -/
def find_timestamp (line : String) : Option DateTime × String :=
  find_timestampGo line _date_formats_

end DateFormats

/-- Models `IndexedString.from_string` (parser.py line 488).  When no
timestamp is found in the line, Python substitutes
`datetime.fromtimestamp(local_timestamp)` or `datetime.now()`; both are
modelled by the single `fallback` argument. -/
def IndexedString.from_string (index : Nat) (value : String)
    (fallback : DateTime) : IndexedString :=
  match DateFormats.find_timestamp value with
  | (some ts, line) => ⟨index, ts, line⟩
  | (none, line) => ⟨index, fallback, line⟩

/-!
## The Squasher (parser.py lines 532-813)
-/

/-- Entries of a `by_message` bucket: Python's
`Union[IndexedString, GroupMatch]` as a tagged sum. -/
inductive BucketEntry where
  | idx (i : IndexedString)
  | group (g : GroupMatch)
deriving DecidableEq

/-- Python `dict.setdefault(key, []).append(entry)` on the insertion-ordered
`by_message` mapping. -/
def bmAppend (bm : List (String × List BucketEntry)) (key : String)
    (entry : BucketEntry) : List (String × List BucketEntry) :=
  match bm with
  | [] => [(key, [entry])]
  | (k, vs) :: rest =>
    if k = key then (k, vs ++ [entry]) :: rest
    else (k, vs) :: bmAppend rest key entry

/-- Models `_split_indexes_and_groups` (parser.py line 532): split a bucket by
entry class, then demote a lone `GroupMatch` to its source `IndexedString`. -/
def _split_indexes_and_groups (messages : List BucketEntry) :
    List IndexedString × List GroupMatch :=
  let indexes := messages.filterMap (fun e =>
    match e with
    | BucketEntry.idx i => some i
    | BucketEntry.group _ => none)
  let groups := messages.filterMap (fun e =>
    match e with
    | BucketEntry.idx _ => none
    | BucketEntry.group g => some g)
  match groups with
  | [g] => (indexes ++ [g.source], [])
  | _ => (indexes, groups)

/-- Models `Squasher`'s state (parser.py line 566).  `by_message` is the
insertion-ordered dict as an association list; `_index` is the internal
index counter. -/
structure Squasher where
  by_message : List (String × List BucketEntry)
  messages : List IndexedString
  multiline_matches : List MultilineGroupMatch
  multiline_match : Option MultilineGroupMatch
  num_bytes : Nat
  _index : Nat
deriving DecidableEq

/-- A freshly constructed `Squasher()`. -/
def Squasher.new : Squasher :=
  { by_message := [], messages := [], multiline_matches := [],
    multiline_match := none, num_bytes := 0, _index := 0 }

/-- Models `Squasher._add_with_single_line_grouping` (parser.py line 696). -/
def Squasher._add_with_single_line_grouping (self : Squasher)
    (value : IndexedString) : Squasher :=
  match SingleLineGroupableRegexes.group_fullmatch value with
  | some m =>
    { self with by_message := bmAppend self.by_message m.message (BucketEntry.group m) }
  | none =>
    { self with by_message := bmAppend self.by_message value.value (BucketEntry.idx value) }

/-- Models `Squasher.add_multiline_match` (parser.py line 632): drop an empty
match, spill an incomplete match's source lines through single-line grouping,
record a completed match. -/
def Squasher.add_multiline_match (self : Squasher)
    (mtch : MultilineGroupMatch) : Squasher :=
  if mtch.source = [] then self
  else if mtch.state ≠ MultilineMatchState.end_ then
    mtch.source.foldl (fun st line => st._add_with_single_line_grouping line) self
  else
    { self with multiline_matches := self.multiline_matches ++ [mtch] }

/-- Models `Squasher.add_indexed_string` (parser.py line 654).  The Python
method mutates `self` and returns whether the string was included; here it
returns the updated state with that `bool`.  The mutation of the current
multi-line match by `last_match.fullmatch(value)` and the subsequent
`self.multiline_match is not last_match` identity test are translated by
threading the updated match explicitly. -/
def Squasher.add_indexed_string (self : Squasher) (value : IndexedString) :
    Squasher × Bool :=
  let self := { self with messages := self.messages ++ [value] }
  if IgnoreRegexes.fullmatch value.value then (self, false)
  else
    match self.multiline_match with
    | some last_match =>
      let (lm, in_group) := last_match.fullmatch value
      if in_group then
        ({ self with multiline_match := some lm }, true)
      else
        let self := { self with multiline_match := none }
        let self := self.add_multiline_match lm
        if lm.state = MultilineMatchState.end_ then (self, true)
        else (self._add_with_single_line_grouping value, true)
    | none =>
      match MultiLineGroupableRegexes.start_fullmatch value with
      | some m => ({ self with multiline_match := some m }, true)
      | none => (self._add_with_single_line_grouping value, true)

/-- Models `Squasher._create_indexed_string` (parser.py line 603): bump the
index counter modulo one million, clean the line, and extract a timestamp.
The state is returned alongside the created string. -/
def Squasher._create_indexed_string (self : Squasher) (value : String)
    (fallback : DateTime) : Squasher × IndexedString :=
  let self := { self with _index := (self._index + 1) % 1000000 }
  (self,
   IndexedString.from_string self._index (CleanRegexes.sub "" value) fallback)

/-- Python `str.splitlines()` line-break characters (LF, VT, FF, CR, FS, GS,
RS, NEL, LINE SEPARATOR, PARAGRAPH SEPARATOR; CR LF counts as one break). -/
def isLineBreak (c : Char) : Bool :=
  let n := c.toNat
  n == 10 || n == 11 || n == 12 || n == 13 || n == 28 || n == 29 || n == 30 ||
    n == 133 || n == 8232 || n == 8233

/-- Python `str.splitlines()`: split at line-break characters, treating CR LF
as a single break, with no entry for a trailing terminator. -/
def pySplitlines : List Char → List (List Char)
  | [] => []
  | '\r' :: '\n' :: rest => [] :: pySplitlines rest
  | c :: rest =>
    if isLineBreak c then [] :: pySplitlines rest
    else
      match pySplitlines rest with
      | [] => [[c]]
      | h :: t => (c :: h) :: t

/-- Models `Squasher.add_lines` (parser.py line 715): account for the raw
bytes, split into lines, and add each line after right-stripping it.  The
`local_timestamp` fallback is the `fallback` argument (see
`IndexedString.from_string`). -/
def Squasher.add_lines (self : Squasher) (value : String)
    (fallback : DateTime) : Squasher :=
  let self :=
    if value.data.contains '\n' then
      { self with num_bytes := self.num_bytes + value.data.length }
    else
      { self with num_bytes := self.num_bytes + value.data.length + 1 }
  (pySplitlines value.data).foldl (fun st line =>
    let p := st._create_indexed_string ⟨pyRstrip line⟩ fallback
    (p.1.add_indexed_string p.2).1) self

/-- Models the `Squasher.pending_lines` property (parser.py line 740). -/
def Squasher.pending_lines (self : Squasher) : List IndexedString :=
  match self.multiline_match with
  | none => []
  | some m => m.source

/-- Insert a Message into a list sorted weakly by `index`, before the first
entry with an index not smaller.  Folding this over a list is a stable
insertion sort, hence extensionally equal to Python's stable
`sorted(…, key=by_index)`. -/
def insertByIndex (m : Message) : List Message → List Message
  | [] => [m]
  | x :: xs => if x.index < m.index then x :: insertByIndex m xs else m :: x :: xs

/-- Stable sort by `index`, modelling `sorted(squashed, key=by_index)`
(parser.py line 810). -/
def sortedByIndex (l : List Message) : List Message :=
  l.foldr insertByIndex []

/-- Fallback for an unknown single-line group name (Python raises `KeyError`;
group matches only ever carry the seven defined names). -/
def slDefaultJoiner : GroupJoiner :=
  { pattern := [neverTok], message_format := [], extras := none,
    extras_join := ", ", count_threshold := 10 }

/-- The `if groups:` block of `Squasher.squash`'s bucket loop (parser.py line
803): look the joiner up by the first match's group name and ask it to join. -/
def groupPart (groups : List GroupMatch) : List Message :=
  match groups with
  | [] => []
  | first :: _ =>
    let joiner :=
      (SingleLineGroupableRegexes.groups.lookup first.name).getD slDefaultJoiner
    match joiner.join groups with
    | some m => [m]
    | none => []

/-- One iteration of `Squasher.squash`'s bucket loop (parser.py lines
780-808).  Note the `continue` in the source: when the bucket key is greenlit
and the bucket has plain entries, the loop emits those one-to-one and skips
the `if groups:` block entirely. -/
def bucketMessages (line : String) (entries : List BucketEntry) :
    List Message :=
  let p := _split_indexes_and_groups entries
  match p.1 with
  | [] => groupPart p.2
  | first :: restIdx =>
    if GreenlitRegexes.fullmatch line then
      Message.from_indexed_strings p.1
    else
      (if restIdx = [] then [Message.from_indexed_string first]
       else
         [⟨"[" ++ toString p.1.length ++ "x] " ++ line, first.timestamp, [],
           first.index, p.1.length⟩]) ++
      groupPart p.2

/-- Models `Squasher.squash` (parser.py line 757).  The Python method reads
the state and builds a fresh list — it assigns to no attribute of `self` —
so the translation returns the state unchanged alongside the message list:
joined multi-line matches first, then each `by_message` bucket in insertion
order, finally stably sorted by `index`. -/
def Squasher.squash (self : Squasher) : Squasher × List Message :=
  let squashed := self.multiline_matches.map MultilineGroupMatch.join
  let squashed :=
    squashed ++ (self.by_message.map (fun kv => bucketMessages kv.1 kv.2)).flatten
  (self, sortedByIndex squashed)

/-- States reachable by feeding a fresh `Squasher` any sequence of
`add_lines` / `add_indexed_string` calls. -/
inductive Reachable : Squasher → Prop
  | new : Reachable Squasher.new
  | add_indexed_string (s : Squasher) (v : IndexedString) :
      Reachable s → Reachable (s.add_indexed_string v).1
  | add_lines (s : Squasher) (v : String) (fallback : DateTime) :
      Reachable s → Reachable (s.add_lines v fallback)

/-!
## Accounting measures used by the conservation statements
-/

/-- Total `source_lines` over a list of Messages. -/
def sumSourceLines (msgs : List Message) : Nat :=
  (msgs.map Message.source_lines).sum

/-- Number of recorded input lines that the ignore filter dropped. -/
def ignoredCount (s : Squasher) : Nat :=
  s.messages.countP (fun m => IgnoreRegexes.fullmatch m.value)

/-- Number of input lines held in `by_message` buckets (each entry stands for
exactly one input line). -/
def bmWeight (s : Squasher) : Nat :=
  (s.by_message.map (fun kv => kv.2.length)).sum

/-- Number of input lines held in completed multi-line matches. -/
def mlWeight (s : Squasher) : Nat :=
  (s.multiline_matches.map (fun m => m.source.length)).sum

/-- Group-match entries of one bucket that the `continue` in `squash`'s
greenlit branch discards (see `bucketMessages`). -/
def bucketDropped (line : String) (entries : List BucketEntry) : Nat :=
  let p := _split_indexes_and_groups entries
  match p.1 with
  | [] => 0
  | _ :: _ => if GreenlitRegexes.fullmatch line then p.2.length else 0

/-- Input lines silently discarded by `squash` across all buckets. -/
def droppedCount (s : Squasher) : Nat :=
  (s.by_message.map (fun kv => bucketDropped kv.1 kv.2)).sum

/-!
## Monitor (monitor.py lines 540-580)
-/

/-- Models the loop at the end of `GlobalMonitor.squash` (monitor.py lines
577-580) that re-inserts a Squasher's pending lines into the file's queue:
`for line in reversed(pending): lines.insert(0, (line.timestamp.timestamp(),
line.value))`.  The conversion of the datetime to a POSIX timestamp is
abstracted as `conv`. -/
def GlobalMonitor.requeue_pending {α : Type} (conv : DateTime → α)
    (pending : List IndexedString) (lines : List (α × String)) :
    List (α × String) :=
  pending.reverse.foldl (fun q line => (conv line.timestamp, line.value) :: q)
    lines

/-!
## Auxiliary definitions used by the verification statements
-/

/-- The date half of the `standard` strftime output, `%Y/%m/%d` (the year
unpadded, month and day zero-padded). -/
def dateChars (dt : DateTime) : List Char :=
  decDigits dt.year ++ ('/' :: (pad2 dt.month ++ ('/' :: pad2 dt.day)))

/-- The time half of the `standard` strftime output, `%H:%M:%S.%f`
zero-padded. -/
def timeChars (dt : DateTime) : List Char :=
  pad2 dt.hour ++ (':' :: (pad2 dt.minute ++ (':' :: (pad2 dt.second ++
    ('.' :: pad6 dt.microsecond)))))

/-- The full `standard` strftime output as characters. -/
def strfStandardChars (dt : DateTime) : List Char :=
  dateChars dt ++ (' ' :: timeChars dt)

/-- Characters that can begin an ANSI-escape match: ESC, or a C1 control
(0x80..0x9F).  Every match of the clean pattern starts with one of these. -/
def isCleanTrigger (c : Char) : Bool :=
  c.toNat == 0x1B || (0x80 ≤ c.toNat && c.toNat ≤ 0x9F)

/-- Sample timestamps for concrete evaluations. -/
def dtEx : DateTime := ⟨2022, 11, 9, 9, 32, 1, 994000⟩

/-- Second sample timestamp. -/
def dtB : DateTime := ⟨2022, 12, 8, 15, 29, 34, 0⟩

/-- Third sample timestamp. -/
def dtC : DateTime := ⟨2023, 1, 2, 3, 4, 5, 6⟩

/-- The procServ multi-line start/end line, indexed. -/
def mlStartLine (i : Nat) : IndexedString := ⟨i, dtEx, "@@@ @@@ @@@ @@@ @@@"⟩

/-- Feed a fresh Squasher the same line text repeatedly through
`add_indexed_string`, with the given `(index, timestamp)` tags. -/
def addRepeated (s : String) (pairs : List (Nat × DateTime)) : Squasher :=
  pairs.foldl (fun st p => (st.add_indexed_string ⟨p.1, p.2, s⟩).1)
    Squasher.new

/-- A Squasher that was fed two complete procServ blocks (four copies of the
start/end line). -/
def twoBlocksState : Squasher :=
  ((((Squasher.new.add_indexed_string (mlStartLine 1)).1.add_indexed_string
      (mlStartLine 2)).1.add_indexed_string
      (mlStartLine 3)).1.add_indexed_string (mlStartLine 4)).1

/-- A Squasher that was fed one complete procServ block whose first source
line has index 1 (start line, one inner line, end line, with distinct
timestamps). -/
def oneBlockState : Squasher :=
  (((Squasher.new.add_indexed_string ⟨1, dtEx, "@@@ @@@ @@@ @@@ @@@"⟩).1.add_indexed_string
      ⟨2, dtB, "@@@ Toggled auto restart mode to ONESHOT"⟩).1.add_indexed_string
      ⟨3, dtC, "@@@ @@@ @@@ @@@ @@@"⟩).1

/-- A Squasher fed two Snmp QryList group matches whose rendered message is
the greenlit string `"@@@ foo: Snmp QryList Timeout"`, plus a raw line with
exactly that text.  The raw line and the two group matches share a bucket
whose key is greenlit. -/
def snmpState : Squasher :=
  (((Squasher.new.add_indexed_string
      ⟨1, dtEx, "@@@ foo: Snmp QryList Timeout on A"⟩).1.add_indexed_string
      ⟨2, dtB, "@@@ foo: Snmp QryList Timeout on B"⟩).1.add_indexed_string
      ⟨3, dtC, "@@@ foo: Snmp QryList Timeout"⟩).1

/-- The accounting invariant maintained by the adders: every recorded input
line is held in exactly one place — a `by_message` bucket, a completed
multi-line match, the in-progress multi-line match, or the ignore count —
and completed multi-line matches are never empty. -/
def StateOK (s : Squasher) : Prop :=
  bmWeight s + mlWeight s + s.pending_lines.length + ignoredCount s =
      s.messages.length ∧
    ∀ m ∈ s.multiline_matches, m.source ≠ []

/-!
## Properties of the stable sort
-/

theorem insertByIndex_perm (m : Message) (l : List Message) :
    (insertByIndex m l).Perm (m :: l) := by
  induction l with
  | nil => exact List.Perm.refl _
  | cons x xs ih =>
    by_cases h : x.index < m.index
    · simp only [insertByIndex, if_pos h]
      exact (ih.cons x).trans (List.Perm.swap m x xs)
    · simp only [insertByIndex, if_neg h]
      exact List.Perm.refl _

theorem sortedByIndex_perm (l : List Message) : (sortedByIndex l).Perm l := by
  induction l with
  | nil => exact List.Perm.refl _
  | cons m rest ih =>
    exact (insertByIndex_perm m (sortedByIndex rest)).trans (ih.cons m)

theorem mem_insertByIndex {y m : Message} {l : List Message} :
    y ∈ insertByIndex m l ↔ y = m ∨ y ∈ l := by
  rw [(insertByIndex_perm m l).mem_iff, List.mem_cons]

theorem insertByIndex_pairwise (m : Message) (l : List Message)
    (h : l.Pairwise (fun a b => a.index ≤ b.index)) :
    (insertByIndex m l).Pairwise (fun a b => a.index ≤ b.index) := by
  induction l with
  | nil => simp [insertByIndex]
  | cons x xs ih =>
    rcases List.pairwise_cons.1 h with ⟨hx, hxs⟩
    by_cases hc : x.index < m.index
    · simp only [insertByIndex, if_pos hc]
      refine List.pairwise_cons.2 ⟨?_, ih hxs⟩
      intro y hy
      rcases mem_insertByIndex.1 hy with rfl | hy'
      · omega
      · exact hx y hy'
    · simp only [insertByIndex, if_neg hc]
      refine List.pairwise_cons.2 ⟨?_, h⟩
      intro y hy
      rcases List.mem_cons.1 hy with rfl | hy'
      · omega
      · exact le_trans (by omega) (hx y hy')

theorem sortedByIndex_pairwise (l : List Message) :
    (sortedByIndex l).Pairwise (fun a b => a.index ≤ b.index) := by
  induction l with
  | nil => exact List.Pairwise.nil
  | cons m rest ih => exact insertByIndex_pairwise m _ ih

theorem sortedByIndex_of_pairwise (l : List Message)
    (h : l.Pairwise (fun a b => a.index ≤ b.index)) : sortedByIndex l = l := by
  induction l with
  | nil => rfl
  | cons m rest ih =>
    rcases List.pairwise_cons.1 h with ⟨hm, hrest⟩
    show insertByIndex m (sortedByIndex rest) = m :: rest
    rw [ih hrest]
    cases rest with
    | nil => rfl
    | cons x xs =>
      have : ¬ x.index < m.index := by
        have := hm x (by simp)
        omega
      simp [insertByIndex, this]

/-- C1 (amended): for every Squasher state, the list returned by `squash()`
is sorted by `index` in non-decreasing order.  (Strict ascent fails because
every completed multi-line group's Message carries index 0; see the
counterexample.) -/
theorem C1_squash_sorted_by_index (s : Squasher) :
    ((s.squash).2).Pairwise (fun a b => a.index ≤ b.index) :=
  sortedByIndex_pairwise _

/-- C1 (counterexample): feeding two complete procServ blocks (four copies of
the start/end line) produces two Messages both with index 0, so the output of
`squash()` is not sorted *strictly* by index. -/
theorem C1_counterexample :
    ((twoBlocksState.squash).2.map Message.index = [0, 0]) ∧
      ¬ ((twoBlocksState.squash).2.Chain' (fun a b => a.index < b.index)) := by
  have hmap : (twoBlocksState.squash).2.map Message.index = [0, 0] := by decide
  refine ⟨hmap, fun hch => ?_⟩
  have h2 := (List.chain'_map Message.index).mpr hch
  rw [hmap] at h2
  simp [List.chain'_cons] at h2

/-- C10: `squash()` is observationally pure — it returns the state unchanged
(`by_message`, `messages`, `multiline_matches`, `multiline_match`,
`num_bytes` and the index counter included), and a second call with no
intervening adds returns the same list of Messages. -/
theorem C10_squash_pure (s : Squasher) :
    (s.squash).1 = s ∧ ((s.squash).1.squash).2 = (s.squash).2 :=
  ⟨rfl, rfl⟩

/-- C9: re-inserting a Squasher's pending lines at the front of the file's
queue (monitor.py lines 577-580) leaves the queue starting with exactly the
pending lines, in their original order, each as a (timestamp, value) pair,
followed by whatever the queue already held. -/
theorem C9_requeue_pending {α : Type} (conv : DateTime → α)
    (pending : List IndexedString) (lines : List (α × String)) :
    GlobalMonitor.requeue_pending conv pending lines =
      pending.map (fun l => (conv l.timestamp, l.value)) ++ lines := by
  induction pending with
  | nil => rfl
  | cons p ps ih =>
    unfold GlobalMonitor.requeue_pending at ih ⊢
    rw [List.reverse_cons, List.foldl_append, ih]
    rfl

/-!
## Cleaning idempotence
-/

theorem ansiMatch_none_of_no_trigger (c : Char) (cs : List Char)
    (h : isCleanTrigger c = false) : ansiMatch (c :: cs) = none := by
  have h1 : ¬ (c.toNat = 0x1B) := by
    intro hc
    simp [isCleanTrigger, hc] at h
  have h2 : (0x80 ≤ c.toNat && c.toNat ≤ 0x9F) = false := by
    simp only [isCleanTrigger, Bool.or_eq_false_iff] at h
    exact h.2
  simp [ansiMatch, h1, h2]

theorem cleanScan_of_no_trigger (repl : List Char) (fuel : Nat)
    (cs : List Char) (h : ∀ c ∈ cs, isCleanTrigger c = false) :
    cleanScan repl fuel cs = cs := by
  induction fuel generalizing cs with
  | zero => cases cs <;> rfl
  | succ n ih =>
    cases cs with
    | nil => rfl
    | cons c rest =>
      have hc := h c (by simp)
      simp only [cleanScan, ansiMatch_none_of_no_trigger c rest hc]
      exact congrArg (c :: ·) (ih rest (fun d hd => h d (by simp [hd])))

/-- C5 (amended): cleaning is idempotent on every string whose once-cleaned
value contains no remaining trigger character (ESC or a C1 control) — in
particular on all ordinary log text.  In general a second pass can remove
more (see the counterexample): removing a match can bring an escape
introducer next to fresh parameter bytes. -/
theorem C5_clean_idempotent (s : String)
    (h : ∀ c ∈ (CleanRegexes.sub "" s).data, isCleanTrigger c = false) :
    CleanRegexes.sub "" (CleanRegexes.sub "" s) = CleanRegexes.sub "" s := by
  conv_lhs => rw [CleanRegexes.sub]
  rw [cleanScan_of_no_trigger _ _ _ h]

/-- C5 (witness): the amended idempotence applied to a concrete string with
one escape sequence. -/
theorem C5_clean_idempotent_witness :
    (∀ c ∈ (CleanRegexes.sub "" "abc\x1B[31m").data, isCleanTrigger c = false) ∧
      CleanRegexes.sub "" (CleanRegexes.sub "" "abc\x1B[31m") =
        CleanRegexes.sub "" "abc\x1B[31m" :=
  ⟨by decide, C5_clean_idempotent _ (by decide)⟩

/-- C5 (counterexample): cleaning `"\x1B\x1B[0m[0m"` once leaves
`"\x1B[0m"` (the scan resumed after the removed match), and cleaning twice
leaves `""` — applying CleanRegexes twice does not equal applying it once. -/
theorem C5_counterexample :
    CleanRegexes.sub "" (CleanRegexes.sub "" "\x1B\x1B[0m[0m") ≠
      CleanRegexes.sub "" "\x1B\x1B[0m[0m" := by
  decide

/-!
## Facts about the pattern matchers
-/

theorem matchToksF_lit_some {fuel : Nat} {toks : List Tok} {l : String}
    {cs : List Char} {caps : List (String × String)}
    (h : matchToksF fuel (Tok.lit l :: toks) cs = some caps) :
    l.data.isPrefixOf cs = true := by
  cases fuel with
  | zero => simp [matchToksF] at h
  | succ n =>
    by_cases hp : l.data.isPrefixOf cs
    · exact hp
    · simp [matchToksF, hp] at h

theorem greenlit_not_ignored (s : String)
    (h : GreenlitRegexes.fullmatch s = true) :
    IgnoreRegexes.fullmatch s = false := by
  unfold GreenlitRegexes.fullmatch toksFullmatch GreenlitRegexes.procserv_lines at h
  rcases Option.isSome_iff_exists.1 h with ⟨caps, hc⟩
  have hp := matchToksF_lit_some hc
  cases hd : s.data with
  | nil => rw [hd] at hp; simp [List.isPrefixOf] at hp
  | cons c rest =>
    rw [hd] at hp
    have hc' : c = '@' := by
      by_contra hne
      simp [List.isPrefixOf, List.isPrefixOf?, beq_iff_eq] at hp
      exact hne hp.1.symm
    unfold IgnoreRegexes.fullmatch
    rw [hd, hc']
    simp [pyIsSpace]

theorem group_fullmatchGo_source (idx : IndexedString)
    (gs : List (String × GroupJoiner)) (g : GroupMatch)
    (h : SingleLineGroupableRegexes.group_fullmatchGo idx gs = some g) :
    g.source = idx := by
  induction gs with
  | nil => simp [SingleLineGroupableRegexes.group_fullmatchGo] at h
  | cons kv rest ih =>
    obtain ⟨name, joiner⟩ := kv
    rcases htoks : toksFullmatch joiner.pattern idx.value.data with _ | caps
    · rw [SingleLineGroupableRegexes.group_fullmatchGo, htoks] at h
      exact ih h
    · rw [SingleLineGroupableRegexes.group_fullmatchGo, htoks] at h
      cases h
      rfl

theorem group_fullmatch_source (idx : IndexedString) (g : GroupMatch)
    (h : SingleLineGroupableRegexes.group_fullmatch idx = some g) :
    g.source = idx :=
  group_fullmatchGo_source idx _ g h

theorem group_fullmatchGo_none_value {i t i2 t2 : _} (s : String)
    (gs : List (String × GroupJoiner))
    (h : SingleLineGroupableRegexes.group_fullmatchGo ⟨i, t, s⟩ gs = none) :
    SingleLineGroupableRegexes.group_fullmatchGo ⟨i2, t2, s⟩ gs = none := by
  induction gs with
  | nil => rfl
  | cons kv rest ih =>
    obtain ⟨name, joiner⟩ := kv
    rcases htoks : toksFullmatch joiner.pattern s.data with _ | caps
    · rw [SingleLineGroupableRegexes.group_fullmatchGo] at h ⊢
      rw [show (⟨i2, t2, s⟩ : IndexedString).value = s from rfl, htoks]
      rw [show (⟨i, t, s⟩ : IndexedString).value = s from rfl, htoks] at h
      exact ih h
    · rw [SingleLineGroupableRegexes.group_fullmatchGo,
        show (⟨i, t, s⟩ : IndexedString).value = s from rfl, htoks] at h
      cases h

theorem group_fullmatch_none_value {i t i2 t2 : _} (s : String)
    (h : SingleLineGroupableRegexes.group_fullmatch ⟨i, t, s⟩ = none) :
    SingleLineGroupableRegexes.group_fullmatch ⟨i2, t2, s⟩ = none :=
  group_fullmatchGo_none_value s _ h

theorem start_fullmatch_none_value {i t i2 t2 : _} (s : String)
    (h : MultiLineGroupableRegexes.start_fullmatch ⟨i, t, s⟩ = none) :
    MultiLineGroupableRegexes.start_fullmatch ⟨i2, t2, s⟩ = none := by
  unfold MultiLineGroupableRegexes.start_fullmatch
    MultiLineGroupableRegexes.start_fullmatchGo
    MultiLineGroupableRegexes.groups at h ⊢
  rcases htoks : toksFullmatch [Tok.lit "@@@ @@@ @@@ @@@ @@@"] s.data with _ | caps
  · simp only [htoks]
    rfl
  · simp [htoks] at h

/-!
## Characterizing plain (non-matching) additions
-/

theorem add_plain (st : Squasher) (v : IndexedString)
    (hml : st.multiline_match = none)
    (hIgn : IgnoreRegexes.fullmatch v.value = false)
    (hStart : MultiLineGroupableRegexes.start_fullmatch v = none)
    (hGrp : SingleLineGroupableRegexes.group_fullmatch v = none) :
    (st.add_indexed_string v).1 =
      { st with
          messages := st.messages ++ [v]
          by_message := bmAppend st.by_message v.value (BucketEntry.idx v) } := by
  simp [Squasher.add_indexed_string, Squasher._add_with_single_line_grouping,
    hml, hIgn, hStart, hGrp]

theorem addRepeated_go (s : String) (pairs : List (Nat × DateTime))
    (st : Squasher) (hml : st.multiline_match = none)
    (hIgn : IgnoreRegexes.fullmatch s = false)
    (hStartAll : ∀ i t, MultiLineGroupableRegexes.start_fullmatch ⟨i, t, s⟩ = none)
    (hGrpAll : ∀ i t, SingleLineGroupableRegexes.group_fullmatch ⟨i, t, s⟩ = none) :
    pairs.foldl (fun st p => (st.add_indexed_string ⟨p.1, p.2, s⟩).1) st =
      { st with
          messages := st.messages ++
            pairs.map (fun p => (⟨p.1, p.2, s⟩ : IndexedString))
          by_message := pairs.foldl
            (fun bm p => bmAppend bm s (BucketEntry.idx ⟨p.1, p.2, s⟩))
            st.by_message } := by
  induction pairs generalizing st with
  | nil => simp
  | cons p ps ih =>
    rw [List.foldl_cons,
      add_plain st _ hml hIgn (hStartAll p.1 p.2) (hGrpAll p.1 p.2)]
    rw [ih _ (by exact hml)]
    simp

theorem bmAppend_single_fold (s : String)
    (f : (Nat × DateTime) → BucketEntry) (ps : List (Nat × DateTime))
    (acc : List BucketEntry) :
    ps.foldl (fun bm p => bmAppend bm s (f p)) [(s, acc)] =
      [(s, acc ++ ps.map f)] := by
  induction ps generalizing acc with
  | nil => simp
  | cons p ps ih =>
    rw [List.foldl_cons]
    show ps.foldl _ (bmAppend [(s, acc)] s (f p)) = _
    rw [show bmAppend [(s, acc)] s (f p) = [(s, acc ++ [f p])] by
      simp [bmAppend]]
    rw [ih]
    simp

theorem fm_idx (l : List IndexedString) :
    (l.map BucketEntry.idx).filterMap (fun e =>
      match e with
      | BucketEntry.idx i => some i
      | BucketEntry.group _ => none) = l := by
  induction l with
  | nil => rfl
  | cons x xs ih => simp [ih]

theorem fm_grp (l : List IndexedString) :
    (l.map BucketEntry.idx).filterMap (fun e =>
      match e with
      | BucketEntry.idx _ => none
      | BucketEntry.group g => some g) = ([] : List GroupMatch) := by
  induction l with
  | nil => rfl
  | cons x xs ih => simp [ih]

theorem split_all_idx (l : List IndexedString) :
    _split_indexes_and_groups (l.map BucketEntry.idx) = (l, []) := by
  unfold _split_indexes_and_groups
  rw [fm_idx, fm_grp]

/-- C8: in any squash window (any Squasher state, whatever else it holds)
where some rendered-message bucket contains exactly one entry and that entry
is a group match — i.e. exactly one line in the window matched a single-line
groupable pattern with this rendered message and no other entry shares its
bucket — that bucket contributes exactly one Message, whose `message` is the
raw line text (the source IndexedString's value), not the rendered group
template, and that Message appears in `squash()`'s output.  (The demotion in
`_split_indexes_and_groups` moves the lone GroupMatch's source into the
plain entries; whether or not the bucket key is greenlit, a single plain
entry is emitted verbatim.) -/
theorem C8_singleton_demotion (s : Squasher) (key : String) (g : GroupMatch)
    (hmem : (key, [BucketEntry.group g]) ∈ s.by_message) :
    bucketMessages key [BucketEntry.group g] =
      [Message.from_indexed_string g.source] ∧
    Message.from_indexed_string g.source ∈ (s.squash).2 := by
  have hbucket : bucketMessages key [BucketEntry.group g] =
      [Message.from_indexed_string g.source] := by
    unfold bucketMessages _split_indexes_and_groups
    simp only [List.filterMap]
    cases hG : GreenlitRegexes.fullmatch key <;>
      simp [hG, Message.from_indexed_strings, groupPart]
  refine ⟨hbucket, ?_⟩
  have hin : Message.from_indexed_string g.source ∈
      (s.by_message.map (fun kv => bucketMessages kv.1 kv.2)).flatten := by
    apply List.mem_flatten.mpr
    refine ⟨bucketMessages key [BucketEntry.group g], ?_, ?_⟩
    · exact List.mem_map.mpr ⟨(key, [BucketEntry.group g]), hmem, rfl⟩
    · rw [hbucket]; exact List.mem_singleton.mpr rfl
  show Message.from_indexed_string g.source ∈
    sortedByIndex (s.multiline_matches.map MultilineGroupMatch.join ++
      (s.by_message.map (fun kv => bucketMessages kv.1 kv.2)).flatten)
  exact (sortedByIndex_perm _).mem_iff.mpr (List.mem_append.mpr (Or.inr hin))

/-- C8 (witness): the demotion theorem applied in a window that also holds an
unrelated plain line: after adding `"abc: Protocol aborted"` (which matches
the `stream_protocol_aborted` groupable pattern) and `"hello"`, the bucket of
the rendered message `"Protocol aborted"` holds exactly the one group match,
and squash emits the raw line. -/
theorem C8_singleton_demotion_witness :
    bucketMessages "Protocol aborted"
        [BucketEntry.group ⟨"stream_protocol_aborted", "Protocol aborted",
          ⟨1, dtEx, "abc: Protocol aborted"⟩, [("pv", "abc")]⟩] =
      [Message.from_indexed_string ⟨1, dtEx, "abc: Protocol aborted"⟩] ∧
    Message.from_indexed_string ⟨1, dtEx, "abc: Protocol aborted"⟩ ∈
      ((((Squasher.new.add_indexed_string
          ⟨1, dtEx, "abc: Protocol aborted"⟩).1.add_indexed_string
          ⟨2, dtB, "hello"⟩).1).squash).2 :=
  C8_singleton_demotion
    ((Squasher.new.add_indexed_string
        ⟨1, dtEx, "abc: Protocol aborted"⟩).1.add_indexed_string
        ⟨2, dtB, "hello"⟩).1
    "Protocol aborted"
    ⟨"stream_protocol_aborted", "Protocol aborted",
      ⟨1, dtEx, "abc: Protocol aborted"⟩, [("pv", "abc")]⟩
    (by decide)

theorem squash_single_bucket (st : Squasher) (key : String)
    (entries : List BucketEntry) (h1 : st.by_message = [(key, entries)])
    (h2 : st.multiline_matches = []) :
    (st.squash).2 = sortedByIndex (bucketMessages key entries) := by
  simp [Squasher.squash, h1, h2]

/-- C6 (amended): a line whose cleaned value full-matches a greenlight
pattern *and* matches neither a multi-line start pattern nor a single-line
groupable pattern is emitted one-to-one: each repetition appears verbatim as
its own Message with `source_lines = 1` and its own index and timestamp.
(The extra conditions are necessary: the multi-line and single-line grouping
stages run before the greenlight check — see the counterexample.) -/
theorem C6_greenlight (s : String) (pairs : List (Nat × DateTime))
    (hG : GreenlitRegexes.fullmatch s = true)
    (hStartAll : ∀ i t, MultiLineGroupableRegexes.start_fullmatch ⟨i, t, s⟩ = none)
    (hGrpAll : ∀ i t, SingleLineGroupableRegexes.group_fullmatch ⟨i, t, s⟩ = none)
    (hSorted : pairs.Pairwise (fun a b => a.1 ≤ b.1)) :
    ((addRepeated s pairs).squash).2 =
      pairs.map (fun p => (⟨s, p.2, [], p.1, 1⟩ : Message)) := by
  have hIgn : IgnoreRegexes.fullmatch s = false := greenlit_not_ignored s hG
  cases pairs with
  | nil => rfl
  | cons p ps =>
    have hst := addRepeated_go s (p :: ps) Squasher.new rfl hIgn hStartAll hGrpAll
    have hbm : (p :: ps).foldl
        (fun bm q => bmAppend bm s (BucketEntry.idx ⟨q.1, q.2, s⟩))
        Squasher.new.by_message =
        [(s, ((p :: ps).map (fun q => (⟨q.1, q.2, s⟩ : IndexedString))).map
          BucketEntry.idx)] := by
      rw [List.foldl_cons]
      show (ps.foldl _ (bmAppend [] s (BucketEntry.idx ⟨p.1, p.2, s⟩)) = _)
      rw [show bmAppend [] s (BucketEntry.idx ⟨p.1, p.2, s⟩) =
        [(s, [BucketEntry.idx ⟨p.1, p.2, s⟩])] from rfl]
      rw [bmAppend_single_fold]
      simp
    have h1 : (addRepeated s (p :: ps)).by_message =
        [(s, ((p :: ps).map (fun q => (⟨q.1, q.2, s⟩ : IndexedString))).map
          BucketEntry.idx)] := by
      rw [addRepeated, hst]
      exact hbm
    have h2 : (addRepeated s (p :: ps)).multiline_matches = [] := by
      rw [addRepeated, hst]
      rfl
    have hb : bucketMessages s
        (((p :: ps).map (fun q => (⟨q.1, q.2, s⟩ : IndexedString))).map
          BucketEntry.idx) =
        (p :: ps).map (fun q => (⟨s, q.2, [], q.1, 1⟩ : Message)) := by
      unfold bucketMessages
      rw [split_all_idx]
      simp [hG, Message.from_indexed_strings, Message.from_indexed_string]
    rw [squash_single_bucket _ s _ h1 h2, hb]
    apply sortedByIndex_of_pairwise
    have hp := (List.pairwise_map
      (R := fun a b : Message => a.index ≤ b.index)
      (f := fun q : Nat × DateTime => (⟨s, q.2, [], q.1, 1⟩ : Message))
      (l := p :: ps)).mpr
    exact hp (hSorted.imp (fun hab => hab))

/-- C6 (witness): the amended greenlight one-to-one property on two copies of
`"@@@ hello"`. -/
theorem C6_greenlight_witness :
    ((addRepeated "@@@ hello" [(1, dtEx), (2, dtB)]).squash).2 =
      [⟨"@@@ hello", dtEx, [], 1, 1⟩, ⟨"@@@ hello", dtB, [], 2, 1⟩] :=
  C6_greenlight "@@@ hello" [(1, dtEx), (2, dtB)] (by decide)
    (fun i t => start_fullmatch_none_value "@@@ hello"
      (i := 0) (t := dtEx) (by decide))
    (fun i t => group_fullmatch_none_value "@@@ hello"
      (i := 0) (t := dtEx) (by decide))
    (by decide)

/-- C6 (counterexample): the greenlit line `"@@@ @@@ @@@ @@@ @@@"` (it
full-matches `@@@ .*`) added twice is consumed by the procServ multi-line
group: `squash()` returns a single `source_lines = 2` Message instead of two
verbatim Messages. -/
theorem C6_counterexample :
    GreenlitRegexes.fullmatch "@@@ @@@ @@@ @@@ @@@" = true ∧
      (((Squasher.new.add_indexed_string (mlStartLine 1)).1.add_indexed_string
          (mlStartLine 2)).1.squash).2.map
        (fun m => (m.message, m.source_lines)) =
        [("procServ status update", 2)] := by
  exact ⟨by decide, by decide⟩

/-- C7: N ≥ 2 identical lines that match no ignore, greenlight, single-line
groupable or multi-line start pattern coalesce into exactly one Message
`"[Nx] <line>"` with `source_lines = N`, taking timestamp and index from the
first of the N lines. -/
theorem C7_coalescence (s : String) (p0 p1 : Nat × DateTime)
    (ps : List (Nat × DateTime))
    (hIgn : IgnoreRegexes.fullmatch s = false)
    (hG : GreenlitRegexes.fullmatch s = false)
    (hStartAll : ∀ i t, MultiLineGroupableRegexes.start_fullmatch ⟨i, t, s⟩ = none)
    (hGrpAll : ∀ i t, SingleLineGroupableRegexes.group_fullmatch ⟨i, t, s⟩ = none) :
    ((addRepeated s (p0 :: p1 :: ps)).squash).2 =
      [⟨"[" ++ toString (ps.length + 2) ++ "x] " ++ s, p0.2, [], p0.1,
        ps.length + 2⟩] := by
  have hst := addRepeated_go s (p0 :: p1 :: ps) Squasher.new rfl hIgn
    hStartAll hGrpAll
  have hbm : (p0 :: p1 :: ps).foldl
      (fun bm q => bmAppend bm s (BucketEntry.idx ⟨q.1, q.2, s⟩))
      Squasher.new.by_message =
      [(s, ((p0 :: p1 :: ps).map (fun q => (⟨q.1, q.2, s⟩ : IndexedString))).map
        BucketEntry.idx)] := by
    rw [List.foldl_cons]
    show (p1 :: ps).foldl _ (bmAppend [] s (BucketEntry.idx ⟨p0.1, p0.2, s⟩)) = _
    rw [show bmAppend [] s (BucketEntry.idx ⟨p0.1, p0.2, s⟩) =
      [(s, [BucketEntry.idx ⟨p0.1, p0.2, s⟩])] from rfl]
    rw [bmAppend_single_fold]
    simp
  have h1 : (addRepeated s (p0 :: p1 :: ps)).by_message =
      [(s, ((p0 :: p1 :: ps).map (fun q => (⟨q.1, q.2, s⟩ : IndexedString))).map
        BucketEntry.idx)] := by
    rw [addRepeated, hst]
    exact hbm
  have h2 : (addRepeated s (p0 :: p1 :: ps)).multiline_matches = [] := by
    rw [addRepeated, hst]
    rfl
  have hb : bucketMessages s
      (((p0 :: p1 :: ps).map (fun q => (⟨q.1, q.2, s⟩ : IndexedString))).map
        BucketEntry.idx) =
      [⟨"[" ++ toString (ps.length + 2) ++ "x] " ++ s, p0.2, [], p0.1,
        ps.length + 2⟩] := by
    unfold bucketMessages
    rw [split_all_idx]
    simp [hG, groupPart, List.length_map]
  rw [squash_single_bucket _ s _ h1 h2, hb]
  simp [sortedByIndex, insertByIndex]

/-- C2 (code bug, evaluated): for the completed multi-line group whose first
source line is `⟨1, dtEx, "@@@ @@@ @@@ @@@ @@@"⟩`, the emitted Message renders
`message_format`, takes the first source's timestamp (`dtEx`) and the
accumulated captures, and `source_lines = 3` — but its `index` is 0, not the
first source line's index 1: `MultilineGroupMatch.join` does not pass `index`
to `Message.from_dict`, so the default 0 applies. -/
theorem C2_index_dropped :
    (oneBlockState.squash).2 =
      [⟨"procServ status update", dtEx, [("restart_mode", ["ONESHOT"])], 0, 3⟩] ∧
      oneBlockState.multiline_matches.map (fun m => m.source.map IndexedString.index) =
        [[1, 2, 3]] := by
  exact ⟨by decide, by decide⟩

/-- C7 (witness): two copies of `"abc"` coalesce into `"[2x] abc"`. -/
theorem C7_coalescence_witness :
    ((addRepeated "abc" [(1, dtEx), (2, dtB)]).squash).2 =
      [⟨"[2x] abc", dtEx, [], 1, 2⟩] :=
  C7_coalescence "abc" (1, dtEx) (2, dtB) [] (by decide) (by decide)
    (fun i t => start_fullmatch_none_value "abc"
      (i := 0) (t := dtEx) (by decide))
    (fun i t => group_fullmatch_none_value "abc"
      (i := 0) (t := dtEx) (by decide))

/-!
## Conservation of lines: the state invariant
-/

theorem bmAppend_weight (bm : List (String × List BucketEntry)) (key : String)
    (e : BucketEntry) :
    ((bmAppend bm key e).map (fun kv => kv.2.length)).sum =
      ((bm.map (fun kv => kv.2.length)).sum) + 1 := by
  induction bm with
  | nil => simp [bmAppend]
  | cons kv rest ih =>
    obtain ⟨k, vs⟩ := kv
    by_cases h : k = key
    · simp [bmAppend, h]
      omega
    · simp [bmAppend, h, ih]
      omega

theorem addSingle_effect (st : Squasher) (v : IndexedString) :
    ∃ key e, st._add_with_single_line_grouping v =
      { st with by_message := bmAppend st.by_message key e } := by
  unfold Squasher._add_with_single_line_grouping
  rcases hg : SingleLineGroupableRegexes.group_fullmatch v with _ | m
  · exact ⟨v.value, BucketEntry.idx v, rfl⟩
  · exact ⟨m.message, BucketEntry.group m, rfl⟩

theorem addSingle_bmWeight (st : Squasher) (v : IndexedString) :
    bmWeight (st._add_with_single_line_grouping v) = bmWeight st + 1 := by
  obtain ⟨key, e, h⟩ := addSingle_effect st v
  rw [h]
  exact bmAppend_weight st.by_message key e

theorem addSingle_rest (st : Squasher) (v : IndexedString) :
    (st._add_with_single_line_grouping v).messages = st.messages ∧
    (st._add_with_single_line_grouping v).multiline_matches =
      st.multiline_matches ∧
    (st._add_with_single_line_grouping v).multiline_match =
      st.multiline_match := by
  obtain ⟨key, e, h⟩ := addSingle_effect st v
  rw [h]
  exact ⟨rfl, rfl, rfl⟩

theorem foldl_addSingle (src : List IndexedString) (st : Squasher) :
    bmWeight (src.foldl (fun a b => a._add_with_single_line_grouping b) st) =
        bmWeight st + src.length ∧
      (src.foldl (fun a b => a._add_with_single_line_grouping b) st).messages =
        st.messages ∧
      (src.foldl (fun a b => a._add_with_single_line_grouping b)
        st).multiline_matches = st.multiline_matches ∧
      (src.foldl (fun a b => a._add_with_single_line_grouping b)
        st).multiline_match = st.multiline_match := by
  induction src generalizing st with
  | nil => exact ⟨rfl, rfl, rfl, rfl⟩
  | cons x xs ih =>
    obtain ⟨w, m1, m2, m3⟩ := ih (st._add_with_single_line_grouping x)
    obtain ⟨r1, r2, r3⟩ := addSingle_rest st x
    refine ⟨?_, by rw [List.foldl_cons, m1, r1],
      by rw [List.foldl_cons, m2, r2], by rw [List.foldl_cons, m3, r3]⟩
    rw [List.foldl_cons, w, addSingle_bmWeight]
    simp only [List.length_cons]
    omega

theorem fullmatch_spec (lm : MultilineGroupMatch) (v : IndexedString) :
    ((lm.fullmatch v).2 = true ∧
        (lm.fullmatch v).1.source = lm.source ++ [v] ∧
        (lm.fullmatch v).1.state = lm.state) ∨
      ((lm.fullmatch v).2 = false ∧
        (lm.fullmatch v).1.source = lm.source ++ [v] ∧
        (lm.fullmatch v).1.state = MultilineMatchState.end_) ∨
      ((lm.fullmatch v).2 = false ∧ (lm.fullmatch v).1 =
        { lm with state := MultilineMatchState.unmatched }) := by
  unfold MultilineGroupMatch.fullmatch
  rcases h1 : findInner v.value ((MultiLineGroupableRegexes.groups.lookup
      lm.name).getD mlDefaultJoiner).inner_patterns with _ | caps
  · rcases h2 : toksFullmatch ((MultiLineGroupableRegexes.groups.lookup
        lm.name).getD mlDefaultJoiner).end_pattern v.value.data with _ | caps2
    · right; right
      simp [h1, h2]
    · right; left
      simp [h1, h2]
  · left
    simp [h1]

theorem add_mlm_end (st : Squasher) (m : MultilineGroupMatch)
    (hs : m.source ≠ []) (he : m.state = MultilineMatchState.end_) :
    st.add_multiline_match m =
      { st with multiline_matches := st.multiline_matches ++ [m] } := by
  unfold Squasher.add_multiline_match
  rw [if_neg hs, if_neg (by rw [he]; exact fun hc => hc rfl)]

theorem add_mlm_not_end (st : Squasher) (m : MultilineGroupMatch)
    (hne : m.state ≠ MultilineMatchState.end_) :
    st.add_multiline_match m =
      m.source.foldl (fun a b => a._add_with_single_line_grouping b) st := by
  unfold Squasher.add_multiline_match
  by_cases hs : m.source = []
  · rw [if_pos hs, hs]
    rfl
  · rw [if_neg hs, if_pos hne]

theorem start_fullmatchGo_some_source (idx : IndexedString)
    (gs : List (String × MultilineGroupJoiner)) (m : MultilineGroupMatch)
    (h : MultiLineGroupableRegexes.start_fullmatchGo idx gs = some m) :
    m.source = [idx] := by
  induction gs with
  | nil => simp [MultiLineGroupableRegexes.start_fullmatchGo] at h
  | cons kv rest ih =>
    obtain ⟨name, joiner⟩ := kv
    rcases htoks : toksFullmatch joiner.start_pattern idx.value.data with _ | caps
    · rw [MultiLineGroupableRegexes.start_fullmatchGo, htoks] at h
      exact ih h
    · rw [MultiLineGroupableRegexes.start_fullmatchGo, htoks] at h
      cases h
      rfl

theorem start_fullmatch_some_source (idx : IndexedString)
    (m : MultilineGroupMatch)
    (h : MultiLineGroupableRegexes.start_fullmatch idx = some m) :
    m.source = [idx] :=
  start_fullmatchGo_some_source idx _ m h

theorem stateOK_new : StateOK Squasher.new := by
  constructor
  · rfl
  · intro m hm
    simp [Squasher.new] at hm

theorem add_shape_ignored (st : Squasher) (v : IndexedString)
    (hIgn : IgnoreRegexes.fullmatch v.value = true) :
    (st.add_indexed_string v).1 = { st with messages := st.messages ++ [v] } := by
  simp [Squasher.add_indexed_string, hIgn]

theorem add_shape_start (st : Squasher) (v : IndexedString)
    (m : MultilineGroupMatch) (hIgn : IgnoreRegexes.fullmatch v.value = false)
    (hml : st.multiline_match = none)
    (hstart : MultiLineGroupableRegexes.start_fullmatch v = some m) :
    (st.add_indexed_string v).1 =
      { st with
          messages := st.messages ++ [v]
          multiline_match := some m } := by
  simp [Squasher.add_indexed_string, hIgn, hml, hstart]

theorem add_shape_nomatch (st : Squasher) (v : IndexedString)
    (hIgn : IgnoreRegexes.fullmatch v.value = false)
    (hml : st.multiline_match = none)
    (hstart : MultiLineGroupableRegexes.start_fullmatch v = none) :
    (st.add_indexed_string v).1 =
      ({ st with messages := st.messages ++ [v]
       } : Squasher)._add_with_single_line_grouping v := by
  simp [Squasher.add_indexed_string, hIgn, hml, hstart]

theorem add_shape_ingroup (st : Squasher) (v : IndexedString)
    (lm l2 : MultilineGroupMatch)
    (hIgn : IgnoreRegexes.fullmatch v.value = false)
    (hml : st.multiline_match = some lm) (hflv : lm.fullmatch v = (l2, true)) :
    (st.add_indexed_string v).1 =
      { st with
          messages := st.messages ++ [v]
          multiline_match := some l2 } := by
  simp [Squasher.add_indexed_string, hIgn, hml, hflv]

theorem add_shape_ended (st : Squasher) (v : IndexedString)
    (lm l2 : MultilineGroupMatch)
    (hIgn : IgnoreRegexes.fullmatch v.value = false)
    (hml : st.multiline_match = some lm)
    (hflv : lm.fullmatch v = (l2, false))
    (hstt : l2.state = MultilineMatchState.end_) :
    (st.add_indexed_string v).1 =
      ({ st with
          messages := st.messages ++ [v]
          multiline_match := none } : Squasher).add_multiline_match l2 := by
  simp [Squasher.add_indexed_string, hIgn, hml, hflv, hstt]

theorem add_shape_unmatched (st : Squasher) (v : IndexedString)
    (lm l2 : MultilineGroupMatch)
    (hIgn : IgnoreRegexes.fullmatch v.value = false)
    (hml : st.multiline_match = some lm)
    (hflv : lm.fullmatch v = (l2, false))
    (hstt : l2.state ≠ MultilineMatchState.end_) :
    (st.add_indexed_string v).1 =
      (({ st with
          messages := st.messages ++ [v]
          multiline_match := none } : Squasher).add_multiline_match
        l2)._add_with_single_line_grouping v := by
  simp [Squasher.add_indexed_string, hIgn, hml, hflv, hstt]

theorem ignoredCount_append_no (st : Squasher) (v : IndexedString)
    (hIgn : IgnoreRegexes.fullmatch v.value = false) :
    List.countP (fun m => IgnoreRegexes.fullmatch m.value)
        (st.messages ++ [v]) = ignoredCount st := by
  simp [ignoredCount, List.countP_append, List.countP_cons, hIgn]

theorem stateOK_add (st : Squasher) (v : IndexedString) (h : StateOK st) :
    StateOK (st.add_indexed_string v).1 := by
  obtain ⟨hsum, hne⟩ := h
  cases hIgn : IgnoreRegexes.fullmatch v.value with
  | true =>
    rw [add_shape_ignored st v hIgn]
    refine ⟨?_, hne⟩
    have e4 : ignoredCount { st with messages := st.messages ++ [v] } =
        ignoredCount st + 1 := by
      simp [ignoredCount, List.countP_append, List.countP_cons, hIgn]
    show bmWeight st + mlWeight st + st.pending_lines.length +
      ignoredCount { st with messages := st.messages ++ [v] } =
      (st.messages ++ [v]).length
    rw [e4, List.length_append]
    simp only [List.length_cons, List.length_nil]
    omega
  | false =>
    cases hml : st.multiline_match with
    | none =>
      have hpend : st.pending_lines.length = 0 := by
        simp [Squasher.pending_lines, hml]
      rcases hstart : MultiLineGroupableRegexes.start_fullmatch v with _ | m
      · rw [add_shape_nomatch st v hIgn hml hstart]
        obtain ⟨key, e, heff⟩ := addSingle_effect
          { st with messages := st.messages ++ [v] } v
        rw [heff]
        refine ⟨?_, hne⟩
        show ((bmAppend st.by_message key e).map (fun kv => kv.2.length)).sum +
          mlWeight st + st.pending_lines.length +
          List.countP (fun m => IgnoreRegexes.fullmatch m.value)
            (st.messages ++ [v]) = (st.messages ++ [v]).length
        rw [bmAppend_weight, ignoredCount_append_no st v hIgn,
          List.length_append]
        simp only [List.length_cons, List.length_nil]
        unfold bmWeight at hsum
        omega
      · rw [add_shape_start st v m hIgn hml hstart]
        refine ⟨?_, hne⟩
        have hm := start_fullmatch_some_source v m hstart
        show bmWeight st + mlWeight st + m.source.length +
          List.countP (fun mm => IgnoreRegexes.fullmatch mm.value)
            (st.messages ++ [v]) = (st.messages ++ [v]).length
        rw [hm, ignoredCount_append_no st v hIgn, List.length_append]
        simp only [List.length_cons, List.length_nil]
        omega
    | some lm =>
      have hpend : st.pending_lines.length = lm.source.length := by
        simp [Squasher.pending_lines, hml]
      rcases hflv : lm.fullmatch v with ⟨l2, b⟩
      have hspec := fullmatch_spec lm v
      rw [hflv] at hspec
      rcases hspec with ⟨hb, hsrc, hstt⟩ | ⟨hb, hsrc, hstt⟩ | ⟨hb, heq⟩
      · simp only at hb
        subst hb
        rw [add_shape_ingroup st v lm l2 hIgn hml hflv]
        refine ⟨?_, hne⟩
        show bmWeight st + mlWeight st + l2.source.length +
          List.countP (fun mm => IgnoreRegexes.fullmatch mm.value)
            (st.messages ++ [v]) = (st.messages ++ [v]).length
        rw [hsrc, ignoredCount_append_no st v hIgn, List.length_append]
        simp only [List.length_append, List.length_cons, List.length_nil]
        omega
      · simp only at hb
        subst hb
        rw [add_shape_ended st v lm l2 hIgn hml hflv hstt]
        rw [add_mlm_end _ l2 (by rw [hsrc]; simp) hstt]
        refine ⟨?_, ?_⟩
        · have hlen : l2.source.length = lm.source.length + 1 := by
            rw [hsrc]
            simp
          unfold bmWeight mlWeight ignoredCount at hsum ⊢
          rw [hpend] at hsum
          simp [Squasher.pending_lines, List.countP_append, List.countP_cons,
            hIgn, hlen]
          omega
        · intro mm hmm
          rcases List.mem_append.1 hmm with hmm2 | hmm2
          · exact hne mm hmm2
          · rcases List.mem_singleton.1 hmm2 with rfl
            rw [hsrc]
            simp
      · simp only at hb heq
        subst hb
        have hstt : l2.state ≠ MultilineMatchState.end_ := by
          rw [heq]
          exact fun hc => by cases hc
        rw [add_shape_unmatched st v lm l2 hIgn hml hflv hstt]
        rw [add_mlm_not_end _ l2 hstt]
        set st1 : Squasher := { st with
            messages := st.messages ++ [v]
            multiline_match := none } with hst1
        set F : Squasher :=
          l2.source.foldl (fun a b => a._add_with_single_line_grouping b) st1
          with hF
        set G : Squasher := F._add_with_single_line_grouping v with hG
        obtain ⟨wfold, mf1, mf2, mf3⟩ := foldl_addSingle l2.source st1
        rw [← hF] at wfold mf1 mf2 mf3
        have b1 := addSingle_bmWeight F v
        obtain ⟨r1, r2, r3⟩ := addSingle_rest F v
        rw [← hG] at b1 r1 r2 r3
        have c1 : bmWeight G = bmWeight st + l2.source.length + 1 := by
          rw [b1, wfold]
          rfl
        have c2 : G.multiline_matches = st.multiline_matches := by
          rw [r2, mf2]
        have c3 : G.multiline_match = none := by
          rw [r3, mf3]
        have c4 : G.messages = st.messages ++ [v] := by
          rw [r1, mf1]
        refine ⟨?_, ?_⟩
        · rw [c1]
          rw [show mlWeight G = mlWeight st from by unfold mlWeight; rw [c2]]
          rw [show G.pending_lines.length = 0 from by
            unfold Squasher.pending_lines
            rw [c3]
            rfl]
          rw [show ignoredCount G = ignoredCount st from by
            unfold ignoredCount
            rw [c4]
            exact ignoredCount_append_no st v hIgn]
          rw [show G.messages.length = st.messages.length + 1 from by
            rw [c4]
            simp]
          rw [show l2.source = lm.source from by rw [heq]]
          omega
        · intro mm hmm
          rw [c2] at hmm
          exact hne mm hmm

theorem stateOK_create (st : Squasher) (v : String) (fb : DateTime)
    (h : StateOK st) : StateOK (st._create_indexed_string v fb).1 :=
  h

set_option maxHeartbeats 1000000 in
theorem stateOK_add_lines (st : Squasher) (v : String) (fb : DateTime)
    (h : StateOK st) : StateOK (st.add_lines v fb) := by
  have hgen : ∀ (lines : List (List Char)) (st2 : Squasher), StateOK st2 →
      StateOK (lines.foldl (fun st3 line =>
        let p := st3._create_indexed_string ⟨pyRstrip line⟩ fb
        (p.1.add_indexed_string p.2).1) st2) := by
    intro lines
    induction lines with
    | nil => intro st2 h2; exact h2
    | cons l ls ih =>
      intro st2 h2
      exact ih _ (stateOK_add _ _ (stateOK_create st2 _ fb h2))
  have hinit : StateOK (if v.data.contains '\n' = true
      then { st with num_bytes := st.num_bytes + v.data.length }
      else { st with num_bytes := st.num_bytes + v.data.length + 1 }) := by
    split
    · exact h
    · exact h
  exact hgen (pySplitlines v.data) _ hinit

theorem stateOK_reachable (s : Squasher) (h : Reachable s) : StateOK s := by
  induction h with
  | new => exact stateOK_new
  | add_indexed_string s v _ ih => exact stateOK_add s v ih
  | add_lines s v fb _ ih => exact stateOK_add_lines s v fb ih

/-!
## Conservation of lines: the emission side
-/

theorem sumSourceLines_append (a b : List Message) :
    sumSourceLines (a ++ b) = sumSourceLines a + sumSourceLines b := by
  simp [sumSourceLines]

theorem sumSourceLines_sorted (L : List Message) :
    sumSourceLines (sortedByIndex L) = sumSourceLines L :=
  ((sortedByIndex_perm L).map Message.source_lines).sum_eq

theorem sumSourceLines_from_indexed (l : List IndexedString) :
    sumSourceLines (Message.from_indexed_strings l) = l.length := by
  induction l with
  | nil => rfl
  | cons x xs ih =>
    simp [Message.from_indexed_strings, sumSourceLines,
      Message.from_indexed_string] at ih ⊢
    omega

theorem join_source_lines (m : MultilineGroupMatch) :
    (m.join).source_lines = m.source.length := by
  obtain ⟨name, state, source, gd⟩ := m
  cases source <;> rfl

theorem ml_sum (l : List MultilineGroupMatch) :
    sumSourceLines (l.map MultilineGroupMatch.join) =
      (l.map (fun m => m.source.length)).sum := by
  induction l with
  | nil => rfl
  | cons x xs ih =>
    simp [sumSourceLines] at ih ⊢
    rw [join_source_lines] at *
    omega

theorem groupPart_sum (grps : List GroupMatch) :
    sumSourceLines (groupPart grps) = grps.length := by
  cases grps with
  | nil => rfl
  | cons g gs => simp [groupPart, GroupJoiner.join, sumSourceLines]

theorem groupPart_pos (grps : List GroupMatch) (m : Message)
    (hm : m ∈ groupPart grps) : 1 ≤ m.source_lines := by
  cases grps with
  | nil => simp [groupPart] at hm
  | cons g gs =>
    simp [groupPart, GroupJoiner.join] at hm
    subst hm
    simp

theorem filterMap_split_length (entries : List BucketEntry) :
    (entries.filterMap (fun e =>
        match e with
        | BucketEntry.idx i => some i
        | BucketEntry.group _ => none)).length +
      (entries.filterMap (fun e =>
        match e with
        | BucketEntry.idx _ => none
        | BucketEntry.group g => some g)).length = entries.length := by
  induction entries with
  | nil => rfl
  | cons e es ih =>
    cases e <;> simp [List.filterMap_cons] <;> omega

theorem split_length (entries : List BucketEntry) :
    (_split_indexes_and_groups entries).1.length +
      (_split_indexes_and_groups entries).2.length = entries.length := by
  have base := filterMap_split_length entries
  unfold _split_indexes_and_groups
  rcases hg : entries.filterMap (fun e =>
      match e with
      | BucketEntry.idx _ => none
      | BucketEntry.group g => some g) with _ | ⟨g, gs⟩
  · simp only [hg] at base ⊢
    simpa using base
  · cases gs with
    | nil =>
      simp only [hg] at base ⊢
      simp at base ⊢
      omega
    | cons g2 gs2 =>
      simp only [hg] at base ⊢
      simpa using base

theorem bucket_source_pos (line : String) (entries : List BucketEntry)
    (m : Message) (hm : m ∈ bucketMessages line entries) :
    1 ≤ m.source_lines := by
  unfold bucketMessages at hm
  rcases hsplit : _split_indexes_and_groups entries with ⟨idxs, grps⟩
  simp only [hsplit] at hm
  cases idxs with
  | nil => exact groupPart_pos grps m hm
  | cons first rest =>
    cases hG : GreenlitRegexes.fullmatch line
    · simp only [hG, Bool.false_eq_true, if_false, reduceIte] at hm
      rcases List.mem_append.1 hm with hml | hmr
      · cases rest with
        | nil =>
          simp at hml
          subst hml
          simp [Message.from_indexed_string]
        | cons second rest2 =>
          simp at hml
          subst hml
          simp
      · exact groupPart_pos grps m hmr
    · simp only [hG, if_true, reduceIte] at hm
      obtain ⟨i, hi, rfl⟩ := List.mem_map.1 hm
      simp [Message.from_indexed_string]

theorem bucket_sum (line : String) (entries : List BucketEntry) :
    sumSourceLines (bucketMessages line entries) +
      bucketDropped line entries = entries.length := by
  have hsl := split_length entries
  unfold bucketMessages bucketDropped
  rcases hsplit : _split_indexes_and_groups entries with ⟨idxs, grps⟩
  simp only [hsplit] at hsl ⊢
  cases idxs with
  | nil =>
    simp only [] at hsl ⊢
    rw [groupPart_sum]
    simpa using hsl
  | cons first rest =>
    cases hG : GreenlitRegexes.fullmatch line
    · simp only [hG, Bool.false_eq_true, if_false, reduceIte]
      cases rest with
      | nil =>
        rw [sumSourceLines_append, groupPart_sum]
        simp [sumSourceLines, Message.from_indexed_string] at hsl ⊢
        omega
      | cons second rest2 =>
        rw [sumSourceLines_append, groupPart_sum]
        simp [sumSourceLines] at hsl ⊢
        omega
    · simp only [hG, if_true, reduceIte]
      rw [sumSourceLines_from_indexed]
      simp at hsl ⊢
      omega

theorem buckets_sum (bml : List (String × List BucketEntry)) :
    sumSourceLines ((bml.map (fun kv => bucketMessages kv.1 kv.2)).flatten) +
      (bml.map (fun kv => bucketDropped kv.1 kv.2)).sum =
      (bml.map (fun kv => kv.2.length)).sum := by
  induction bml with
  | nil => rfl
  | cons kv rest ih =>
    simp only [List.map_cons, List.flatten_cons, List.sum_cons]
    rw [sumSourceLines_append]
    have := bucket_sum kv.1 kv.2
    omega

theorem squash_sum (s : Squasher) :
    sumSourceLines (s.squash).2 + droppedCount s = bmWeight s + mlWeight s := by
  have h1 : (s.squash).2 = sortedByIndex
      (s.multiline_matches.map MultilineGroupMatch.join ++
        (s.by_message.map (fun kv => bucketMessages kv.1 kv.2)).flatten) := rfl
  rw [h1, sumSourceLines_sorted, sumSourceLines_append, ml_sum]
  have h2 := buckets_sum s.by_message
  unfold droppedCount bmWeight mlWeight
  omega

theorem length_le_sum (msgs : List Message)
    (h : ∀ m ∈ msgs, 1 ≤ m.source_lines) :
    msgs.length ≤ sumSourceLines msgs := by
  induction msgs with
  | nil => simp [sumSourceLines]
  | cons x xs ih =>
    have hx := h x (by simp)
    have hxs := ih (fun m hm => h m (by simp [hm]))
    simp [sumSourceLines] at hxs ⊢
    omega

theorem squash_mem_pos (s : Squasher)
    (h2 : ∀ m ∈ s.multiline_matches, m.source ≠ []) :
    ∀ m ∈ (s.squash).2, 1 ≤ m.source_lines := by
  intro m hm
  have h1 : (s.squash).2 = sortedByIndex
      (s.multiline_matches.map MultilineGroupMatch.join ++
        (s.by_message.map (fun kv => bucketMessages kv.1 kv.2)).flatten) := rfl
  rw [h1, (sortedByIndex_perm _).mem_iff] at hm
  rcases List.mem_append.1 hm with hml | hbk
  · obtain ⟨mm, hmm, rfl⟩ := List.mem_map.1 hml
    rw [join_source_lines]
    exact List.length_pos.mpr (h2 mm hmm)
  · obtain ⟨msgs, hmsgs, hmem⟩ := List.mem_flatten.1 hbk
    obtain ⟨kv, hkv, rfl⟩ := List.mem_map.1 hmsgs
    exact bucket_source_pos kv.1 kv.2 m hmem

/-- C3 (amended): for every reachable Squasher state,
`len(squash()) + len(pending_lines) ≤ len(messages)` holds as claimed, and
the exact accounting is: the sum of `source_lines` over the emitted Messages,
plus `len(pending_lines)`, plus the number of ignore-filtered lines, *plus
the number of group-match entries silently dropped from greenlit buckets*,
equals `len(messages)`.  The claimed equality without the last term fails
(see the counterexample): the `continue` in `squash()`'s greenlit branch
skips the `if groups:` block, so group matches sharing a greenlit bucket key
are lost. -/
theorem C3_conservation (s : Squasher) (h : Reachable s) :
    (s.squash).2.length + (s.pending_lines).length ≤ s.messages.length ∧
      sumSourceLines (s.squash).2 + (s.pending_lines).length +
        ignoredCount s + droppedCount s = s.messages.length := by
  obtain ⟨hsum, hne⟩ := stateOK_reachable s h
  have hsq := squash_sum s
  have hlen := length_le_sum (s.squash).2 (squash_mem_pos s hne)
  constructor <;> omega

/-- C3 (witness): the conservation statement applied to a single added
line. -/
theorem C3_conservation_witness :
    Reachable (Squasher.new.add_indexed_string ⟨1, dtEx, "abc"⟩).1 ∧
      (((Squasher.new.add_indexed_string ⟨1, dtEx, "abc"⟩).1.squash).2.length +
          ((Squasher.new.add_indexed_string
            ⟨1, dtEx, "abc"⟩).1.pending_lines).length ≤
          (Squasher.new.add_indexed_string ⟨1, dtEx, "abc"⟩).1.messages.length ∧
        sumSourceLines
            ((Squasher.new.add_indexed_string ⟨1, dtEx, "abc"⟩).1.squash).2 +
          ((Squasher.new.add_indexed_string
            ⟨1, dtEx, "abc"⟩).1.pending_lines).length +
          ignoredCount (Squasher.new.add_indexed_string ⟨1, dtEx, "abc"⟩).1 +
          droppedCount (Squasher.new.add_indexed_string ⟨1, dtEx, "abc"⟩).1 =
          (Squasher.new.add_indexed_string ⟨1, dtEx, "abc"⟩).1.messages.length) := by
  have hr : Reachable (Squasher.new.add_indexed_string ⟨1, dtEx, "abc"⟩).1 :=
    Reachable.add_indexed_string Squasher.new ⟨1, dtEx, "abc"⟩ Reachable.new
  exact ⟨hr, C3_conservation _ hr⟩

/-- C3 (counterexample): a reachable state for which the claim's equality
fails.  Two `"@@@ foo: Snmp QryList Timeout on …"` lines become group
matches bucketed under the rendered message
`"@@@ foo: Snmp QryList Timeout"`; a third raw line with exactly that
(greenlit) text joins the same bucket.  `squash()` emits only the raw line
and drops the two group matches, so the emitted `source_lines` total 1 while
3 lines were recorded, none ignored, none pending. -/
theorem C3_counterexample :
    Reachable snmpState ∧
      sumSourceLines (snmpState.squash).2 + (snmpState.pending_lines).length +
          ignoredCount snmpState ≠ snmpState.messages.length := by
  constructor
  · exact Reachable.add_indexed_string _ _
      (Reachable.add_indexed_string _ _
        (Reachable.add_indexed_string _ _ Reachable.new))
  · decide

/-!
## Timestamp round-trip: digit and string plumbing
-/

theorem dv_digitChar (a : Nat) (h : a ≤ 9) : dv (digitChar a) = a := by
  interval_cases a <;> decide

theorem isDigit_digitChar (a : Nat) (h : a ≤ 9) :
    isDigitChar (digitChar a) = true := by
  interval_cases a <;> decide

theorem digitChar_not_space (a : Nat) (h : a ≤ 9) :
    pyIsSpace (digitChar a) = false := by
  interval_cases a <;> decide

theorem digitChar_ne_space (a : Nat) (h : a ≤ 9) : digitChar a ≠ ' ' := by
  interval_cases a <;> decide

theorem pyStrip_of (cs : List Char)
    (h1 : ∀ c, cs.head? = some c → pyIsSpace c = false)
    (h2 : ∀ c, cs.getLast? = some c → pyIsSpace c = false) :
    pyStrip cs = cs := by
  cases cs with
  | nil => rfl
  | cons c t =>
    have hc : pyIsSpace c = false := h1 c rfl
    unfold pyStrip
    rw [List.dropWhile_cons, hc]
    simp only [Bool.false_eq_true, if_false, reduceIte]
    cases hrev : (c :: t).reverse with
    | nil => exact absurd (congrArg List.length hrev) (by simp)
    | cons d rest =>
      have hd : pyIsSpace d = false := by
        apply h2
        rw [← List.head?_reverse, hrev]
        rfl
      rw [List.dropWhile_cons, hd]
      simp only [Bool.false_eq_true, if_false, reduceIte]
      rw [← hrev, List.reverse_reverse]

theorem splitOnChar_append (sep : Char) (a b : List Char)
    (h : ∀ c ∈ a, c ≠ sep) :
    splitOnChar sep (a ++ sep :: b) = a :: splitOnChar sep b := by
  induction a with
  | nil => simp [splitOnChar]
  | cons x xs ih =>
    have hx : x ≠ sep := h x (by simp)
    rw [List.cons_append]
    conv_lhs => unfold splitOnChar
    rw [if_neg hx, ih (fun c hc => h c (by simp [hc]))]

theorem splitOnChar_no_sep (sep : Char) (a : List Char)
    (h : ∀ c ∈ a, c ≠ sep) : splitOnChar sep a = [a] := by
  induction a with
  | nil => rfl
  | cons x xs ih =>
    have hx : x ≠ sep := h x (by simp)
    conv_lhs => unfold splitOnChar
    rw [if_neg hx, ih (fun c hc => h c (by simp [hc]))]

theorem decDigitsGo_zero (fuel : Nat) : decDigitsGo fuel 0 = [] := by
  cases fuel <;> rfl

theorem decDigitsGo_four (fuel y : Nat) (hf : 4 ≤ fuel) (h1 : 1000 ≤ y)
    (h2 : y ≤ 9999) : decDigitsGo fuel y = pad4 y := by
  have ka : y / 10 / 10 = y / 100 := by rw [Nat.div_div_eq_div_mul]
  have kb : y / 100 / 10 = y / 1000 := by rw [Nat.div_div_eq_div_mul]
  have kc : y / 1000 / 10 = y / 10000 := by rw [Nat.div_div_eq_div_mul]
  obtain ⟨f, rfl⟩ : ∃ f, fuel = f + 4 := ⟨fuel - 4, by omega⟩
  rw [show f + 4 = (f + 3) + 1 from rfl, decDigitsGo, if_neg (by omega)]
  rw [show f + 3 = (f + 2) + 1 from rfl, decDigitsGo,
    if_neg (show ¬y / 10 = 0 by omega)]
  rw [show f + 2 = (f + 1) + 1 from rfl, decDigitsGo, ka,
    if_neg (show ¬y / 100 = 0 by omega)]
  rw [decDigitsGo, kb, if_neg (show ¬y / 1000 = 0 by omega), kc,
    show y / 10000 = 0 by omega, decDigitsGo_zero]
  have hm : y / 1000 % 10 = y / 1000 := Nat.mod_eq_of_lt (by omega)
  simp [pad4, hm]

theorem decDigits_eq_pad4 (y : Nat) (h1 : 1000 ≤ y) (h2 : y ≤ 9999) :
    decDigits y = pad4 y := by
  unfold decDigits
  rw [if_neg (by omega)]
  exact decDigitsGo_four (y + 1) y (by omega) h1 h2

theorem mem_dateChars_ne_space (dt : DateTime) (hy1 : 1000 ≤ dt.year)
    (hy : dt.year ≤ 9999) (hmo : dt.month ≤ 99) (hda : dt.day ≤ 99) :
    ∀ c ∈ dateChars dt, c ≠ ' ' := by
  intro c hc
  rw [dateChars, decDigits_eq_pad4 dt.year hy1 hy] at hc
  simp only [pad4, pad2, List.mem_append, List.mem_cons,
    List.mem_nil_iff, List.mem_singleton, or_false] at hc
  rcases hc with (rfl | rfl | rfl | rfl) | rfl | (rfl | rfl) | rfl | (rfl | rfl)
  all_goals first
    | decide
    | exact digitChar_ne_space _ (by omega)

theorem mem_timeChars_ne_space (dt : DateTime) (hh : dt.hour ≤ 99)
    (hmi : dt.minute ≤ 99) (hs : dt.second ≤ 99)
    (hf : dt.microsecond ≤ 999999) :
    ∀ c ∈ timeChars dt, c ≠ ' ' := by
  intro c hc
  simp only [timeChars, pad2, pad6, List.mem_append, List.mem_cons,
    List.mem_nil_iff, List.mem_singleton, or_false] at hc
  rcases hc with (rfl | rfl) | rfl | (rfl | rfl) | rfl | (rfl | rfl) | rfl |
    (rfl | rfl | rfl | rfl | rfl | rfl)
  all_goals first
    | decide
    | exact digitChar_ne_space _ (by omega)

/-!
## Timestamp round-trip: stepping through the `standard` format
-/

theorem dchar0 : digitChar 0 = '0' := rfl

theorem dchar1 : digitChar 1 = '1' := rfl

theorem dchar2 : digitChar 2 = '2' := rfl

theorem dchar3 : digitChar 3 = '3' := rfl

theorem dchar4 : digitChar 4 = '4' := rfl

theorem dchar5 : digitChar 5 = '5' := rfl

theorem dchar6 : digitChar 6 = '6' := rfl

theorem dchar7 : digitChar 7 = '7' := rfl

theorem dchar8 : digitChar 8 = '8' := rfl

theorem dchar9 : digitChar 9 = '9' := rfl

theorem matchFmtF_lit (n : Nat) (c : Char) (rest : List FTok)
    (cs : List Char) :
    matchFmtF (n + 1) (FTok.lit c :: rest) (c :: cs) = matchFmtF n rest cs := by
  simp [matchFmtF]

theorem stepY (n : Nat) (rest : List FTok) (cs : List Char)
    (r : List (Char × Nat)) (y : Nat) (hy : y ≤ 9999)
    (hcont : matchFmtF n rest cs = some r) :
    matchFmtF (n + 2) (FTok.dir 'Y' :: rest) (pad4 y ++ cs) =
      some (('Y', y) :: r) := by
  have h1 : y / 1000 ≤ 9 := by omega
  have h2 : y / 100 % 10 ≤ 9 := by omega
  have h3 : y / 10 % 10 ≤ 9 := by omega
  have h4 : y % 10 ≤ 9 := by omega
  simp only [pad4, List.cons_append, List.nil_append]
  rw [show n + 2 = (n + 1) + 1 from rfl]
  rw [matchFmtF]
  simp only [candsFor, isDigit_digitChar _ h1, isDigit_digitChar _ h2,
    isDigit_digitChar _ h3, isDigit_digitChar _ h4, Bool.and_self, if_true,
    reduceIte, Bool.and_true, Bool.true_and]
  rw [matchFmtF, hcont]
  simp only [readDs, List.foldl_cons, List.foldl_nil, dv_digitChar _ h1,
    dv_digitChar _ h2, dv_digitChar _ h3, dv_digitChar _ h4]
  have ka : y / 10 / 10 = y / 100 := by rw [Nat.div_div_eq_div_mul]
  have kb : y / 100 / 10 = y / 1000 := by rw [Nat.div_div_eq_div_mul]
  congr 3
  omega

theorem stepM (n : Nat) (rest : List FTok) (cs : List Char)
    (r : List (Char × Nat)) (mo : Nat) (h1 : 1 ≤ mo) (h2 : mo ≤ 12)
    (hcont : matchFmtF n rest cs = some r) :
    matchFmtF (n + 2) (FTok.dir 'm' :: rest) (pad2 mo ++ cs) =
      some (('m', mo) :: r) := by
  interval_cases mo <;>
    simp [pad2, matchFmtF, candsFor, dv, hcont, dchar0, dchar1, dchar2,
      dchar3, dchar4, dchar5, dchar6, dchar7, dchar8, dchar9]

theorem stepD (n : Nat) (rest : List FTok) (cs : List Char)
    (r : List (Char × Nat)) (da : Nat) (h1 : 1 ≤ da) (h2 : da ≤ 31)
    (hcont : matchFmtF n rest cs = some r) :
    matchFmtF (n + 2) (FTok.dir 'd' :: rest) (pad2 da ++ cs) =
      some (('d', da) :: r) := by
  interval_cases da <;>
    simp [pad2, matchFmtF, candsFor, dv, hcont, dchar0, dchar1, dchar2,
      dchar3, dchar4, dchar5, dchar6, dchar7, dchar8, dchar9]

theorem stepH (n : Nat) (rest : List FTok) (cs : List Char)
    (r : List (Char × Nat)) (h : Nat) (h2 : h ≤ 23)
    (hcont : matchFmtF n rest cs = some r) :
    matchFmtF (n + 2) (FTok.dir 'H' :: rest) (pad2 h ++ cs) =
      some (('H', h) :: r) := by
  interval_cases h <;>
    simp [pad2, matchFmtF, candsFor, dv, hcont, dchar0, dchar1, dchar2,
      dchar3, dchar4, dchar5, dchar6, dchar7, dchar8, dchar9]

theorem stepMin (n : Nat) (rest : List FTok) (cs : List Char)
    (r : List (Char × Nat)) (mi : Nat) (h2 : mi ≤ 59)
    (hcont : matchFmtF n rest cs = some r) :
    matchFmtF (n + 2) (FTok.dir 'M' :: rest) (pad2 mi ++ cs) =
      some (('M', mi) :: r) := by
  interval_cases mi <;>
    simp [pad2, matchFmtF, candsFor, dv, hcont, dchar0, dchar1, dchar2,
      dchar3, dchar4, dchar5, dchar6, dchar7, dchar8, dchar9]

theorem stepS (n : Nat) (rest : List FTok) (cs : List Char)
    (r : List (Char × Nat)) (se : Nat) (h2 : se ≤ 59)
    (hcont : matchFmtF n rest cs = some r) :
    matchFmtF (n + 2) (FTok.dir 'S' :: rest) (pad2 se ++ cs) =
      some (('S', se) :: r) := by
  interval_cases se <;>
    simp [pad2, matchFmtF, candsFor, dv, hcont, dchar0, dchar1, dchar2,
      dchar3, dchar4, dchar5, dchar6, dchar7, dchar8, dchar9]

theorem stepF (n : Nat) (rest : List FTok) (r : List (Char × Nat)) (f : Nat)
    (hf : f ≤ 999999) (hcont : matchFmtF n rest [] = some r) :
    matchFmtF (n + 2) (FTok.dir 'f' :: rest) (pad6 f) =
      some (('f', f) :: r) := by
  have h1 : f / 100000 ≤ 9 := by omega
  have h2 : f / 10000 % 10 ≤ 9 := by omega
  have h3 : f / 1000 % 10 ≤ 9 := by omega
  have h4 : f / 100 % 10 ≤ 9 := by omega
  have h5 : f / 10 % 10 ≤ 9 := by omega
  have h6 : f % 10 ≤ 9 := by omega
  rw [show n + 2 = (n + 1) + 1 from rfl]
  rw [matchFmtF]
  simp only [pad6, candsFor, List.takeWhile_cons, isDigit_digitChar _ h1,
    isDigit_digitChar _ h2, isDigit_digitChar _ h3, isDigit_digitChar _ h4,
    isDigit_digitChar _ h5, isDigit_digitChar _ h6, if_true, reduceIte,
    List.takeWhile_nil, List.length_cons, List.length_nil]
  norm_num
  rw [fCandsAux]
  simp only [List.take, List.drop]
  rw [matchFmtF, hcont]
  simp only [readDs, List.foldl_cons, List.foldl_nil, dv_digitChar _ h1,
    dv_digitChar _ h2, dv_digitChar _ h3, dv_digitChar _ h4,
    dv_digitChar _ h5, dv_digitChar _ h6]
  have ka : f / 10 / 10 = f / 100 := by rw [Nat.div_div_eq_div_mul]
  have kb : f / 100 / 10 = f / 1000 := by rw [Nat.div_div_eq_div_mul]
  have kc : f / 1000 / 10 = f / 10000 := by rw [Nat.div_div_eq_div_mul]
  have kd : f / 10000 / 10 = f / 100000 := by rw [Nat.div_div_eq_div_mul]
  congr 3
  omega

theorem daysInMonth_le (y m : Nat) : daysInMonth y m ≤ 31 := by
  unfold daysInMonth
  split
  · split <;> omega
  · split <;> omega

theorem find_timestampGo_head_success (line nm fstr : String) (sc : Char)
    (n : Nat) (rest : List (String × DateFormat)) (dt : DateTime)
    (h : strptime
        ⟨joinWithChar sc ((splitOnChar sc (pyStrip line.data)).take n)⟩
        fstr = some dt) :
    DateFormats.find_timestampGo line
        ((nm, { format := fstr, split_char := sc, split_count := n,
                cleaner := none }) :: rest) =
      (some dt,
        ⟨joinWithChar sc ((splitOnChar sc (pyStrip line.data)).drop n)⟩) := by
  simp only [DateFormats.find_timestampGo]
  rw [h]

theorem strptime_standard (dt : DateTime) (hy1 : 1000 ≤ dt.year)
    (h2 : dt.year ≤ 9999)
    (h3 : 1 ≤ dt.month) (h4 : dt.month ≤ 12) (h5 : 1 ≤ dt.day)
    (hd31 : dt.day ≤ 31) (h7 : dt.hour ≤ 23) (h8 : dt.minute ≤ 59)
    (h9 : dt.second ≤ 59) (h10 : dt.microsecond ≤ 999999)
    (hchk : dtCheck dt = true) :
    strptime ⟨strfStandardChars dt⟩ "%Y/%m/%d %H:%M:%S.%f" = some dt := by
  have s0 : matchFmtF 106 [] [] = some [] := rfl
  have s1 : matchFmtF 108 [FTok.dir 'f'] (pad6 dt.microsecond) =
      some [('f', dt.microsecond)] := stepF 106 [] [] dt.microsecond h10 s0
  have s2 : matchFmtF 109 [FTok.lit '.', FTok.dir 'f']
      ('.' :: pad6 dt.microsecond) = some [('f', dt.microsecond)] := by
    rw [matchFmtF_lit]; exact s1
  have s3 : matchFmtF 111 [FTok.dir 'S', FTok.lit '.', FTok.dir 'f']
      (pad2 dt.second ++ ('.' :: pad6 dt.microsecond)) =
      some [('S', dt.second), ('f', dt.microsecond)] :=
    stepS 109 _ _ _ dt.second h9 s2
  have s4 : matchFmtF 112 [FTok.lit ':', FTok.dir 'S', FTok.lit '.',
      FTok.dir 'f']
      (':' :: (pad2 dt.second ++ ('.' :: pad6 dt.microsecond))) =
      some [('S', dt.second), ('f', dt.microsecond)] := by
    rw [matchFmtF_lit]; exact s3
  have s5 : matchFmtF 114 [FTok.dir 'M', FTok.lit ':', FTok.dir 'S',
      FTok.lit '.', FTok.dir 'f']
      (pad2 dt.minute ++ (':' :: (pad2 dt.second ++
        ('.' :: pad6 dt.microsecond)))) =
      some [('M', dt.minute), ('S', dt.second), ('f', dt.microsecond)] :=
    stepMin 112 _ _ _ dt.minute h8 s4
  have s6 : matchFmtF 115 [FTok.lit ':', FTok.dir 'M', FTok.lit ':',
      FTok.dir 'S', FTok.lit '.', FTok.dir 'f']
      (':' :: (pad2 dt.minute ++ (':' :: (pad2 dt.second ++
        ('.' :: pad6 dt.microsecond))))) =
      some [('M', dt.minute), ('S', dt.second), ('f', dt.microsecond)] := by
    rw [matchFmtF_lit]; exact s5
  have s7 : matchFmtF 117 [FTok.dir 'H', FTok.lit ':', FTok.dir 'M',
      FTok.lit ':', FTok.dir 'S', FTok.lit '.', FTok.dir 'f']
      (pad2 dt.hour ++ (':' :: (pad2 dt.minute ++ (':' :: (pad2 dt.second ++
        ('.' :: pad6 dt.microsecond)))))) =
      some [('H', dt.hour), ('M', dt.minute), ('S', dt.second),
        ('f', dt.microsecond)] :=
    stepH 115 _ _ _ dt.hour h7 s6
  have s8 : matchFmtF 118 [FTok.lit ' ', FTok.dir 'H', FTok.lit ':',
      FTok.dir 'M', FTok.lit ':', FTok.dir 'S', FTok.lit '.', FTok.dir 'f']
      (' ' :: (pad2 dt.hour ++ (':' :: (pad2 dt.minute ++
        (':' :: (pad2 dt.second ++ ('.' :: pad6 dt.microsecond))))))) =
      some [('H', dt.hour), ('M', dt.minute), ('S', dt.second),
        ('f', dt.microsecond)] := by
    rw [matchFmtF_lit]; exact s7
  have s9 : matchFmtF 120 [FTok.dir 'd', FTok.lit ' ', FTok.dir 'H',
      FTok.lit ':', FTok.dir 'M', FTok.lit ':', FTok.dir 'S', FTok.lit '.',
      FTok.dir 'f']
      (pad2 dt.day ++ (' ' :: (pad2 dt.hour ++ (':' :: (pad2 dt.minute ++
        (':' :: (pad2 dt.second ++ ('.' :: pad6 dt.microsecond)))))))) =
      some [('d', dt.day), ('H', dt.hour), ('M', dt.minute), ('S', dt.second),
        ('f', dt.microsecond)] :=
    stepD 118 _ _ _ dt.day h5 hd31 s8
  have s10 : matchFmtF 121 [FTok.lit '/', FTok.dir 'd', FTok.lit ' ',
      FTok.dir 'H', FTok.lit ':', FTok.dir 'M', FTok.lit ':', FTok.dir 'S',
      FTok.lit '.', FTok.dir 'f']
      ('/' :: (pad2 dt.day ++ (' ' :: (pad2 dt.hour ++ (':' ::
        (pad2 dt.minute ++ (':' :: (pad2 dt.second ++
          ('.' :: pad6 dt.microsecond))))))))) =
      some [('d', dt.day), ('H', dt.hour), ('M', dt.minute), ('S', dt.second),
        ('f', dt.microsecond)] := by
    rw [matchFmtF_lit]; exact s9
  have s11 : matchFmtF 123 [FTok.dir 'm', FTok.lit '/', FTok.dir 'd',
      FTok.lit ' ', FTok.dir 'H', FTok.lit ':', FTok.dir 'M', FTok.lit ':',
      FTok.dir 'S', FTok.lit '.', FTok.dir 'f']
      (pad2 dt.month ++ ('/' :: (pad2 dt.day ++ (' ' :: (pad2 dt.hour ++
        (':' :: (pad2 dt.minute ++ (':' :: (pad2 dt.second ++
          ('.' :: pad6 dt.microsecond)))))))))) =
      some [('m', dt.month), ('d', dt.day), ('H', dt.hour), ('M', dt.minute),
        ('S', dt.second), ('f', dt.microsecond)] :=
    stepM 121 _ _ _ dt.month h3 h4 s10
  have s12 : matchFmtF 124 [FTok.lit '/', FTok.dir 'm', FTok.lit '/',
      FTok.dir 'd', FTok.lit ' ', FTok.dir 'H', FTok.lit ':', FTok.dir 'M',
      FTok.lit ':', FTok.dir 'S', FTok.lit '.', FTok.dir 'f']
      ('/' :: (pad2 dt.month ++ ('/' :: (pad2 dt.day ++ (' ' ::
        (pad2 dt.hour ++ (':' :: (pad2 dt.minute ++ (':' ::
          (pad2 dt.second ++ ('.' :: pad6 dt.microsecond))))))))))) =
      some [('m', dt.month), ('d', dt.day), ('H', dt.hour), ('M', dt.minute),
        ('S', dt.second), ('f', dt.microsecond)] := by
    rw [matchFmtF_lit]; exact s11
  have s13 : matchFmtF 126 [FTok.dir 'Y', FTok.lit '/', FTok.dir 'm',
      FTok.lit '/', FTok.dir 'd', FTok.lit ' ', FTok.dir 'H', FTok.lit ':',
      FTok.dir 'M', FTok.lit ':', FTok.dir 'S', FTok.lit '.', FTok.dir 'f']
      (pad4 dt.year ++ ('/' :: (pad2 dt.month ++ ('/' :: (pad2 dt.day ++
        (' ' :: (pad2 dt.hour ++ (':' :: (pad2 dt.minute ++ (':' ::
          (pad2 dt.second ++ ('.' :: pad6 dt.microsecond)))))))))))) =
      some [('Y', dt.year), ('m', dt.month), ('d', dt.day), ('H', dt.hour),
        ('M', dt.minute), ('S', dt.second), ('f', dt.microsecond)] :=
    stepY 124 _ _ _ dt.year h2 s12
  have hshape : strfStandardChars dt =
      pad4 dt.year ++ ('/' :: (pad2 dt.month ++ ('/' :: (pad2 dt.day ++
        (' ' :: (pad2 dt.hour ++ (':' :: (pad2 dt.minute ++ (':' ::
          (pad2 dt.second ++ ('.' :: pad6 dt.microsecond))))))))))) := by
    simp [strfStandardChars, dateChars, timeChars,
      decDigits_eq_pad4 dt.year hy1 h2]
  have hmain : matchFmtF
      (((compileFmt ("%Y/%m/%d %H:%M:%S.%f" : String).data).length + 1) * 9)
      (compileFmt ("%Y/%m/%d %H:%M:%S.%f" : String).data)
      (String.mk (strfStandardChars dt)).data =
      some [('Y', dt.year), ('m', dt.month), ('d', dt.day), ('H', dt.hour),
        ('M', dt.minute), ('S', dt.second), ('f', dt.microsecond)] := by
    show matchFmtF 126 [FTok.dir 'Y', FTok.lit '/', FTok.dir 'm',
      FTok.lit '/', FTok.dir 'd', FTok.lit ' ', FTok.dir 'H', FTok.lit ':',
      FTok.dir 'M', FTok.lit ':', FTok.dir 'S', FTok.lit '.', FTok.dir 'f']
      (strfStandardChars dt) = _
    rw [hshape]
    exact s13
  simp only [strptime]
  rw [hmain]
  show (if dtCheck dt then some dt else none) = some dt
  rw [hchk]
  rfl

/-- C4. Timestamp extraction round-trip, corrected to the `standard` format
and to years of four digits: for every datetime with 1000 ≤ year ≤ 9999 and
the remaining fields in the ranges the `datetime` constructor accepts,
`find_timestamp` applied to the `standard`-formatted timestamp followed by
`" msg"` returns the datetime and `"msg"`.  The claim's quantification over
all three defined formats fails: the `short` format does not record the year
(strptime substitutes the default 1900), and an `iso8601_1`-formatted line
is rejected outright because the trailing message stays in the date portion
(split on `'-'` never separates it), so `strptime` fails with unconverted
data remaining.  The year bound is also necessary: the platform `strftime`
prints years below 1000 unpadded, which the four-digit `%Y` of `strptime`
rejects (see the counterexample's last conjunct). -/
theorem C4_roundtrip (dt : DateTime) (h1 : 1000 ≤ dt.year)
    (h2 : dt.year ≤ 9999)
    (h3 : 1 ≤ dt.month) (h4 : dt.month ≤ 12) (h5 : 1 ≤ dt.day)
    (h6 : dt.day ≤ daysInMonth dt.year dt.month) (h7 : dt.hour ≤ 23)
    (h8 : dt.minute ≤ 59) (h9 : dt.second ≤ 59)
    (h10 : dt.microsecond ≤ 999999) :
    DateFormats.find_timestamp (DateFormats.format dt "standard" ++ " msg") =
      (some dt, "msg") := by
  have hd31 : dt.day ≤ 31 := le_trans h6 (daysInMonth_le dt.year dt.month)
  have hchk : dtCheck dt = true := by
    simp only [dtCheck, Bool.and_eq_true, decide_eq_true_eq]
    omega
  have hdata : (DateFormats.format dt "standard" ++ " msg").data =
      strfStandardChars dt ++ [' ', 'm', 's', 'g'] := by
    show (decDigits dt.year ++ (['/'] ++ (pad2 dt.month ++ (['/'] ++
        (pad2 dt.day ++ ([' '] ++ (pad2 dt.hour ++ ([':'] ++
        (pad2 dt.minute ++ ([':'] ++ (pad2 dt.second ++ (['.'] ++
        (pad6 dt.microsecond ++ []))))))))))))) ++ [' ', 'm', 's', 'g'] = _
    simp [strfStandardChars, dateChars, timeChars]
  have hstripped : pyStrip (strfStandardChars dt ++ [' ', 'm', 's', 'g']) =
      strfStandardChars dt ++ [' ', 'm', 's', 'g'] := by
    apply pyStrip_of
    · intro c hc
      have hhead : (strfStandardChars dt ++ [' ', 'm', 's', 'g']).head? =
          some (digitChar (dt.year / 1000)) := by
        rw [strfStandardChars, dateChars, decDigits_eq_pad4 dt.year h1 h2]
        simp [pad4]
      rw [hhead, Option.some.injEq] at hc
      subst hc
      exact digitChar_not_space _ (by omega)
    · intro c hc
      rw [show strfStandardChars dt ++ [' ', 'm', 's', 'g'] =
          (strfStandardChars dt ++ [' ', 'm', 's']) ++ ['g'] from by simp] at hc
      rw [List.getLast?_concat, Option.some.injEq] at hc
      subst hc
      decide
  have hsplit : splitOnChar ' ' (strfStandardChars dt ++ [' ', 'm', 's', 'g']) =
      [dateChars dt, timeChars dt, ['m', 's', 'g']] := by
    have e1 : strfStandardChars dt ++ [' ', 'm', 's', 'g'] =
        dateChars dt ++ (' ' :: (timeChars dt ++ (' ' :: ['m', 's', 'g']))) := by
      simp [strfStandardChars]
    rw [e1]
    rw [splitOnChar_append ' ' (dateChars dt) _
      (mem_dateChars_ne_space dt (by omega) (by omega) (by omega) (by omega))]
    rw [splitOnChar_append ' ' (timeChars dt) _
      (mem_timeChars_ne_space dt (by omega) (by omega) (by omega) (by omega))]
    rw [splitOnChar_no_sep ' ' ['m', 's', 'g'] (by decide)]
  have hjoin : joinWithChar ' ' [dateChars dt, timeChars dt] =
      strfStandardChars dt := by
    simp [joinWithChar, List.intercalate, List.intersperse, strfStandardChars]
  have hstrp : strptime ⟨joinWithChar ' ' ((splitOnChar ' '
      (pyStrip (DateFormats.format dt "standard" ++ " msg").data)).take 2)⟩
      "%Y/%m/%d %H:%M:%S.%f" = some dt := by
    rw [hdata, hstripped, hsplit]
    rw [show [dateChars dt, timeChars dt, ['m', 's', 'g']].take 2 =
      [dateChars dt, timeChars dt] from rfl]
    rw [hjoin]
    exact strptime_standard dt h1 h2 h3 h4 h5 hd31 h7 h8 h9 h10 hchk
  unfold DateFormats.find_timestamp DateFormats._date_formats_
  rw [find_timestampGo_head_success _ "standard" _ ' ' 2 _ dt hstrp]
  rw [hdata, hstripped, hsplit]
  rfl

/-- Witness for C4 at a concrete timestamp. -/
theorem C4_roundtrip_witness :
    DateFormats.find_timestamp (DateFormats.format dtEx "standard" ++ " msg") =
      (some dtEx, "msg") :=
  C4_roundtrip dtEx (by decide) (by decide) (by decide) (by decide)
    (by decide) (by decide) (by decide) (by decide) (by decide) (by decide)

/-- Counterexample to C4 as stated: with the `short` format the round trip
loses the year (strptime fills in the `_strptime` default 1900), so the
returned datetime differs from the formatted one; and even with the
`standard` format the round trip fails for a year below 1000, because the
platform `strftime` prints `%Y` unpadded (year 50 formats as `"50"`) and no
date format can then parse the line back. -/
theorem C4_counterexample :
    DateFormats.find_timestamp (DateFormats.format dtEx "short" ++ " msg") =
      (some ⟨1900, 11, 9, 9, 32, 1, 994000⟩, "msg") ∧
    DateFormats.find_timestamp (DateFormats.format dtEx "short" ++ " msg") ≠
      (some dtEx, "msg") ∧
    DateFormats.find_timestamp
        (DateFormats.format ⟨50, 1, 2, 3, 4, 5, 6⟩ "standard" ++ " msg") ≠
      (some ⟨50, 1, 2, 3, 4, 5, 6⟩, "msg") := by
  decide

end EpicsLogSquasher
